import Mathlib

/-!
Verification of the fiscal-document extraction pipeline
(`document_agent.py`, `openai_service.py`).

The pipeline's data values are the values Python's `json` module can
produce, so we first build a value type `JsonValue` together with an
executable model `loads` of `json.loads` (restricted to `str` input, as in
the source).  Numeric literals with a fraction or exponent are kept as an
exact mantissa/exponent pair (IEEE-754 rounding is not modelled; no claim
compares distinct lexemes of the same float).  Lone surrogate escapes,
which Python keeps as lone surrogate code units, are mapped to the NUL
character because Lean's `Char` only holds scalar values; no claim touches
them.
-/

/-- The backslash character, named to keep escape sequences readable. -/
def bslash : Char := Char.ofNat 92

/-- The double-quote character. -/
def dquote : Char := Char.ofNat 34

/-- The opening-brace character. -/
def lbrace : Char := Char.ofNat 123

/-- The closing-brace character. -/
def rbrace : Char := Char.ofNat 125

/-- The backtick character. -/
def btick : Char := Char.ofNat 96

/-- Values produced by Python's `json` module: `None`, `bool`, `int`,
`float` (finite floats as an exact mantissa/exponent pair, plus the
`NaN`/`Infinity` extensions Python accepts), `str`, `list`, `dict`.
Objects are association lists in insertion order, mirroring `dict`. -/
inductive JsonValue where
  | jnull : JsonValue
  | jbool : Bool → JsonValue
  | jint : Int → JsonValue
  | jfloat : Int → Int → JsonValue
  | jnan : JsonValue
  | jinf : Bool → JsonValue
  | jstr : String → JsonValue
  | jarr : List JsonValue → JsonValue
  | jobj : List (String × JsonValue) → JsonValue

open JsonValue

/-- A Python dict holding extracted fields: an association list in
insertion order (the spec's `ExtractedRecord`). -/
abbrev Record := List (String × JsonValue)

/-- Python truthiness of a JSON-derived value (`bool(v)`). -/
def truthy : JsonValue → Bool
  | jnull => false
  | jbool b => b
  | jint n => n != 0
  | jfloat m _ => m != 0
  | jnan => true
  | jinf _ => true
  | jstr s => s != ""
  | jarr xs => !xs.isEmpty
  | jobj kvs => !kvs.isEmpty

/-- Whether a value is a Python `str`. -/
def isStrB : JsonValue → Bool
  | jstr _ => true
  | _ => false

/-- JSON whitespace skipped by Python's decoder (space, tab, LF, CR). -/
def jsonWs (c : Char) : Bool := c == ' ' || c == '\t' || c == '\n' || c == '\r'

/-- Drop leading JSON whitespace. -/
def skipWs (cs : List Char) : List Char := cs.dropWhile jsonWs

/-- Hexadecimal digit value, for `\uXXXX` escapes. -/
def hexVal (c : Char) : Option Nat :=
  if c.isDigit then some (c.toNat - 48)
  else if 'a' ≤ c && c ≤ 'f' then some (c.toNat - 87)
  else if 'A' ≤ c && c ≤ 'F' then some (c.toNat - 55)
  else none

/-- Body of a JSON string after the opening quote: handles the standard
escapes, `\uXXXX` with surrogate-pair combination, and rejects raw control
characters (Python's default `strict=True`).  Fuel bounds recursion. -/
def parseStringBody (fuel : Nat) (cs : List Char) (acc : List Char) :
    Option (String × List Char) :=
  match fuel with
  | 0 => none
  | f + 1 =>
    match cs with
    | [] => none
    | c :: rest =>
      if c = dquote then some (String.mk acc.reverse, rest)
      else if c = bslash then
        match rest with
        | [] => none
        | e :: rest2 =>
          if e = dquote then parseStringBody f rest2 (dquote :: acc)
          else if e = bslash then parseStringBody f rest2 (bslash :: acc)
          else if e = '/' then parseStringBody f rest2 ('/' :: acc)
          else if e = 'b' then parseStringBody f rest2 (Char.ofNat 8 :: acc)
          else if e = 'f' then parseStringBody f rest2 (Char.ofNat 12 :: acc)
          else if e = 'n' then parseStringBody f rest2 ('\n' :: acc)
          else if e = 'r' then parseStringBody f rest2 ('\r' :: acc)
          else if e = 't' then parseStringBody f rest2 ('\t' :: acc)
          else if e = 'u' then
            match rest2 with
            | a :: b :: c2 :: d :: rest3 =>
              match hexVal a, hexVal b, hexVal c2, hexVal d with
              | some x1, some x2, some x3, some x4 =>
                let n := ((x1 * 16 + x2) * 16 + x3) * 16 + x4
                if 0xD800 ≤ n && n ≤ 0xDBFF then
                  -- possible surrogate pair
                  match rest3 with
                  | s1 :: s2 :: a2 :: b2 :: c3 :: d2 :: rest4 =>
                    if s1 = bslash && s2 = 'u' then
                      match hexVal a2, hexVal b2, hexVal c3, hexVal d2 with
                      | some y1, some y2, some y3, some y4 =>
                        let n2 := ((y1 * 16 + y2) * 16 + y3) * 16 + y4
                        if 0xDC00 ≤ n2 && n2 ≤ 0xDFFF then
                          parseStringBody f rest4
                            (Char.ofNat (0x10000 + (n - 0xD800) * 1024 + (n2 - 0xDC00)) :: acc)
                        else parseStringBody f rest3 (Char.ofNat n :: acc)
                      | _, _, _, _ => parseStringBody f rest3 (Char.ofNat n :: acc)
                    else parseStringBody f rest3 (Char.ofNat n :: acc)
                  | _ => parseStringBody f rest3 (Char.ofNat n :: acc)
                else parseStringBody f rest3 (Char.ofNat n :: acc)
              | _, _, _, _ => none
            | _ => none
          else none
      else if c.toNat < 0x20 then none
      else parseStringBody f rest (c :: acc)

/-- Split a character list into its maximal leading run of digits and the
rest. -/
def digitsTake (cs : List Char) : List Char × List Char :=
  (cs.takeWhile Char.isDigit, cs.dropWhile Char.isDigit)

/-- Numeric value of a digit string. -/
def digitsVal (cs : List Char) : Nat :=
  cs.foldl (fun acc c => acc * 10 + (c.toNat - 48)) 0

/-- Strip trailing decimal zeros from a mantissa, bumping the exponent, so
that equal float literals get equal representations. -/
def stripTens (fuel : Nat) (m : Int) (e : Int) : Int × Int :=
  match fuel with
  | 0 => (m, e)
  | f + 1 => if m % 10 = 0 && m != 0 then stripTens f (m / 10) (e + 1) else (m, e)

/-- Build the value of a matched number literal: `int` when there is no
fraction and no exponent, else a normalized mantissa/exponent float. -/
def mkNum (neg : Bool) (ipart fpart : List Char) (epart : Option Int) : JsonValue :=
  match fpart, epart with
  | [], none =>
    let v : Int := Int.ofNat (digitsVal ipart)
    jint (if neg then -v else v)
  | _, _ =>
    let mant : Int := Int.ofNat (digitsVal (ipart ++ fpart))
    let mant := if neg then -mant else mant
    let ex : Int := (epart.getD 0) - Int.ofNat fpart.length
    if mant = 0 then jfloat 0 0
    else
      let (m, e) := stripTens (ipart ++ fpart).length mant ex
      jfloat m e

/-- Model of Python's `NUMBER_RE`:
`(-?(?:0|[1-9]\d*))(\.\d+)?([eE][-+]?\d+)?`, maximal munch, returning the
value and the unconsumed rest. -/
def parseNumber (cs : List Char) : Option (JsonValue × List Char) :=
  let (neg, cs1) :=
    match cs with
    | c :: r => if c = '-' then (true, r) else (false, cs)
    | [] => (false, cs)
  match cs1 with
  | [] => none
  | c :: r =>
    if !c.isDigit then none
    else
      let (ipart, rest1) := if c = '0' then ([c], r) else digitsTake cs1
      let (fpart, rest2) :=
        match rest1 with
        | p :: r2 =>
          if p = '.' then
            let (ds, r3) := digitsTake r2
            if ds.isEmpty then (([] : List Char), rest1) else (ds, r3)
          else (([] : List Char), rest1)
        | [] => (([] : List Char), rest1)
      let (epart, rest3) :=
        match rest2 with
        | e :: r4 =>
          if e = 'e' || e = 'E' then
            let (esgn, r5) :=
              match r4 with
              | s :: r6 =>
                if s = '+' then ((1 : Int), r6)
                else if s = '-' then ((-1 : Int), r6)
                else ((1 : Int), r4)
              | [] => ((1 : Int), r4)
            let (ds, r7) := digitsTake r5
            if ds.isEmpty then ((none : Option Int), rest2)
            else (some (esgn * Int.ofNat (digitsVal ds)), r7)
          else ((none : Option Int), rest2)
        | [] => ((none : Option Int), rest2)
      some (mkNum neg ipart fpart epart, rest3)

/-- Replace-or-append insertion, mirroring how `dict` handles a repeated
key during object decoding (later value wins, first position kept). -/
def objInsert (kvs : List (String × JsonValue)) (k : String) (v : JsonValue) :
    List (String × JsonValue) :=
  match kvs with
  | [] => [(k, v)]
  | (k0, v0) :: rest =>
    if k0 == k then (k0, v) :: rest else (k0, v0) :: objInsert rest k v

mutual

/-- Model of the Python scanner's `_scan_once`: parse one JSON value at the
head of the input (no leading whitespace), returning it and the rest. -/
def parseValue (fuel : Nat) (cs : List Char) : Option (JsonValue × List Char) :=
  match fuel with
  | 0 => none
  | f + 1 =>
    match cs with
    | [] => none
    | c :: rest =>
      if c = dquote then
        match parseStringBody (rest.length + 1) rest [] with
        | some (s, r) => some (jstr s, r)
        | none => none
      else if c = lbrace then
        let cs1 := skipWs rest
        match cs1 with
        | c1 :: r1 => if c1 = rbrace then some (jobj [], r1) else parseMembers f cs1 []
        | [] => none
      else if c = '[' then
        let cs1 := skipWs rest
        match cs1 with
        | c1 :: r1 => if c1 = ']' then some (jarr [], r1) else parseArrItems f cs1 []
        | [] => none
      else if ['t', 'r', 'u', 'e'].isPrefixOf cs then some (jbool true, cs.drop 4)
      else if ['f', 'a', 'l', 's', 'e'].isPrefixOf cs then some (jbool false, cs.drop 5)
      else if ['n', 'u', 'l', 'l'].isPrefixOf cs then some (jnull, cs.drop 4)
      else if ['N', 'a', 'N'].isPrefixOf cs then some (jnan, cs.drop 3)
      else if ['I', 'n', 'f', 'i', 'n', 'i', 't', 'y'].isPrefixOf cs then
        some (jinf false, cs.drop 8)
      else if ['-', 'I', 'n', 'f', 'i', 'n', 'i', 't', 'y'].isPrefixOf cs then
        some (jinf true, cs.drop 9)
      else parseNumber cs

/-- Members of an object after `{` and any whitespace (first key expected
at the head): `"key" ws : ws value ws (, ws ... )* }`. -/
def parseMembers (fuel : Nat) (cs : List Char) (acc : List (String × JsonValue)) :
    Option (JsonValue × List Char) :=
  match fuel with
  | 0 => none
  | f + 1 =>
    match cs with
    | [] => none
    | c :: rest =>
      if c = dquote then
        match parseStringBody (rest.length + 1) rest [] with
        | some (k, r1) =>
          match skipWs r1 with
          | c1 :: r2 =>
            if c1 = ':' then
              match parseValue f (skipWs r2) with
              | some (v, r3) =>
                let acc2 := objInsert acc k v
                match skipWs r3 with
                | c2 :: r4 =>
                  if c2 = ',' then parseMembers f (skipWs r4) acc2
                  else if c2 = rbrace then some (jobj acc2, r4)
                  else none
                | [] => none
              | none => none
            else none
          | [] => none
        | none => none
      else none

/-- Items of an array after `[` and any whitespace (first item expected at
the head): `value ws (, ws value ws)* ]`. -/
def parseArrItems (fuel : Nat) (cs : List Char) (acc : List JsonValue) :
    Option (JsonValue × List Char) :=
  match fuel with
  | 0 => none
  | f + 1 =>
    match parseValue f cs with
    | some (v, r1) =>
      match skipWs r1 with
      | c :: r2 =>
        if c = ',' then parseArrItems f (skipWs r2) (acc ++ [v])
        else if c = ']' then some (jarr (acc ++ [v]), r2)
        else none
      | [] => none
    | none => none

end

/-- Model of `json.loads` on a character list: a single value with
whitespace allowed around it; trailing data is an error. -/
def loadsL (cs : List Char) : Option JsonValue :=
  match parseValue (cs.length + 1) (skipWs cs) with
  | some (v, rest) => if (skipWs rest).isEmpty then some v else none
  | none => none

/-- Model of `json.loads` on a Python `str`. -/
def loads (s : String) : Option JsonValue := loadsL s.toList

/-!
Response Extractor (`DocumentAgent._parse_json_response`).

The source tries, in order: `json.loads` on the whole text; a fenced
block matched by the regex made of three backticks, `json`, optional
whitespace, a lazy group, optional whitespace, three backticks (DOTALL);
the greedy brace regex (DOTALL), whose match runs from the first opening
brace that has a later closing brace up to the last closing brace; and a
scan for the first line whose stripped form starts with an opening brace.
Any parse failure inside the fallback block is caught and yields the
empty dict, so later strategies never run after an earlier strategy
matched but failed to parse.
-/

/-- Whitespace for Python's `str.strip` and the regex whitespace class
(space, tab, LF, CR, FF, VT). -/
def pyWs (c : Char) : Bool :=
  c == ' ' || c == '\t' || c == '\n' || c == '\r' ||
  c == Char.ofNat 11 || c == Char.ofNat 12

/-- Python `str.strip` on a character list. -/
def pyStripL (cs : List Char) : List Char :=
  ((cs.dropWhile pyWs).reverse.dropWhile pyWs).reverse

/-- Python `str.split` on a single newline separator. -/
def pySplitNl (cs : List Char) : List (List Char) :=
  match cs with
  | [] => [[]]
  | c :: rest =>
    let r := pySplitNl rest
    if c = '\n' then [] :: r
    else
      match r with
      | l :: ls => (c :: l) :: ls
      | [] => [[c]]

/-- The literal opening of the fenced-block regex: three backticks then
`json`. -/
def fencePat : List Char := [btick, btick, btick, 'j', 's', 'o', 'n']

/-- Three backticks, the closing fence. -/
def btick3 : List Char := [btick, btick, btick]

/-- Characters strictly before the first occurrence of three consecutive
backticks; `none` when there is no such occurrence.  This is where the
lazy group of the fenced-block regex ends. -/
def closeSplit : List Char → Option (List Char)
  | [] => none
  | c :: rest =>
    if btick3.isPrefixOf (c :: rest) then some []
    else (closeSplit rest).map (c :: ·)

/-- The group captured by the fenced-block regex: at the first occurrence
of the opening literal, the content up to the next closing fence with
surrounding whitespace absorbed by the whitespace stars; `none` when the
regex has no match in the text. -/
def fencedJson : List Char → Option (List Char)
  | [] => none
  | c :: rest =>
    if fencePat.isPrefixOf (c :: rest) then
      (closeSplit ((c :: rest).drop 7)).map pyStripL
    else fencedJson rest

/-- Whether `pat` occurs as a contiguous substring. -/
def hasSubL (pat : List Char) : List Char → Bool
  | [] => pat.isEmpty
  | c :: rest => pat.isPrefixOf (c :: rest) || hasSubL pat rest

/-- Prefix of `l` up to and including the last occurrence of `c`
(unchanged semantics only used when `c` occurs). -/
def upToLast (c : Char) (l : List Char) : List Char :=
  ((l.reverse.dropWhile (· ≠ c)).reverse)

/-- Match of the greedy brace regex under DOTALL: from the first opening
brace that has a later closing brace, up to the last closing brace of the
whole text. -/
def braceSpan : List Char → Option (List Char)
  | [] => none
  | c :: rest =>
    if c = lbrace && rest.contains rbrace then some (lbrace :: upToLast rbrace rest)
    else braceSpan rest

/-- The first line of the stripped text whose stripped form starts with an
opening brace (strategy 4 of the source). -/
def firstBraceLine (cs : List Char) : Option (List Char) :=
  (pySplitNl (pyStripL cs)).find? (fun l => (pyStripL l).head? = some lbrace)

/-- Model of `DocumentAgent._parse_json_response`: direct parse, then the
fenced block, then the greedy brace span, then the first brace line; a
strategy that matches but fails to parse ends in the inner exception
handler, which returns the empty dict. -/
def parse_json_response (text : String) : JsonValue :=
  match loads text with
  | some v => v
  | none =>
    match fencedJson text.toList with
    | some content =>
      match loadsL content with
      | some v => v
      | none => jobj []
    | none =>
      match braceSpan text.toList with
      | some span =>
        match loadsL span with
        | some v => v
        | none => jobj []
      | none =>
        match firstBraceLine text.toList with
        | some line =>
          match loadsL line with
          | some v => v
          | none => jobj []
        | none => jobj []

/-- The slice of `cs` from index `i` through index `j` when it is a
well-formed brace span: starts with an opening brace, ends with a closing
brace, and parses as JSON. -/
def spanAt (cs : List Char) (i j : Nat) : Option JsonValue :=
  if i < j ∧ j < cs.length then
    let s := (cs.drop i).take (j - i + 1)
    if s.head? = some lbrace ∧ s.getLast? = some rbrace then loadsL s else none
  else none

/-- Every well-formed brace span of the text, one entry per index pair;
the claim's "exactly one well-formed span" is this list being a
singleton. -/
def wellFormedSpans (cs : List Char) : List JsonValue :=
  (List.range cs.length).flatMap (fun i =>
    (List.range cs.length).filterMap (fun j => spanAt cs i j))

/-!
Field normalizers (`OpenAIService._validate_date_format`,
`_validate_rut_format`, `_clean_amount`).  The two regex searches are
modelled directly as backtracking matchers with the same candidate order
as the `re` module: leftmost starting position, greedy `\d{1,2}` trying
two digits before one, optional atoms trying to consume before skipping.
-/

/-- The separator class of the date patterns. -/
def sepChar (c : Char) : Bool := c == '/' || c == '-'

/-- Candidates for `\d{1,2}` at the head of the input, in the regex
engine's greedy order (two digits first, then one). -/
def try12 (cs : List Char) : List (List Char × List Char) :=
  match cs with
  | c1 :: c2 :: rest =>
    if c1.isDigit && c2.isDigit then [([c1, c2], rest), ([c1], c2 :: rest)]
    else if c1.isDigit then [([c1], c2 :: rest)]
    else []
  | [c1] => if c1.isDigit then [([c1], [])] else []
  | [] => []

/-- Exactly four digits at the head (`\d{4}`). -/
def digits4 (cs : List Char) : Option (List Char × List Char) :=
  match cs with
  | a :: b :: c :: d :: rest =>
    if a.isDigit && b.isDigit && c.isDigit && d.isDigit then some ([a, b, c, d], rest)
    else none
  | _ => none

/-- Exactly three digits at the head (`\d{3}`). -/
def digits3 (cs : List Char) : Option (List Char × List Char) :=
  match cs with
  | a :: b :: c :: rest =>
    if a.isDigit && b.isDigit && c.isDigit then some ([a, b, c], rest)
    else none
  | _ => none

/-- Tail of date pattern 1 after the first group: separator, `\d{1,2}`,
separator, `\d{4}`. -/
def pat1Tail (g1 : List Char) (cs : List Char) :
    Option (List Char × List Char × List Char) :=
  match cs with
  | s1 :: cs1 =>
    if sepChar s1 then
      (try12 cs1).findSome? (fun p =>
        match p.2 with
        | s2 :: cs2 =>
          if sepChar s2 then
            match digits4 cs2 with
            | some (g3, _) => some (g1, p.1, g3)
            | none => none
          else none
        | [] => none)
    else none
  | [] => none

/-- Date pattern 1 `(\d{1,2})[\/\-](\d{1,2})[\/\-](\d{4})` anchored at the
current position. -/
def pat1At (cs : List Char) : Option (List Char × List Char × List Char) :=
  (try12 cs).findSome? (fun p => pat1Tail p.1 p.2)

/-- `re.search` of date pattern 1: leftmost position wins. -/
def searchPat1 : List Char → Option (List Char × List Char × List Char)
  | [] => none
  | c :: rest =>
    match pat1At (c :: rest) with
    | some r => some r
    | none => searchPat1 rest

/-- Date pattern 2 `(\d{4})[\/\-](\d{1,2})[\/\-](\d{1,2})` anchored at the
current position. -/
def pat2At (cs : List Char) : Option (List Char × List Char × List Char) :=
  match digits4 cs with
  | some (g1, cs1) =>
    match cs1 with
    | s1 :: cs2 =>
      if sepChar s1 then
        (try12 cs2).findSome? (fun p =>
          match p.2 with
          | s2 :: cs3 =>
            if sepChar s2 then
              (try12 cs3).findSome? (fun q => some (g1, p.1, q.1))
            else none
          | [] => none)
      else none
    | [] => none
  | none => none

/-- `re.search` of date pattern 2. -/
def searchPat2 : List Char → Option (List Char × List Char × List Char)
  | [] => none
  | c :: rest =>
    match pat2At (c :: rest) with
    | some r => some r
    | none => searchPat2 rest

/-- Model of `OpenAIService._validate_date_format`: empty input yields
`None`; pattern 1 is searched first and reassembles the three groups with
slashes in matched order; pattern 2 (year first) reverses them; with no
match the input is returned unchanged. -/
def _validate_date_format (s : String) : Option String :=
  if s = "" then none
  else
    match searchPat1 s.toList with
    | some (g1, g2, g3) => some (String.mk (g1 ++ '/' :: g2 ++ '/' :: g3))
    | none =>
      match searchPat2 s.toList with
      | some (g1, g2, g3) => some (String.mk (g3 ++ '/' :: g2 ++ '/' :: g1))
      | none => some s

/-- Characters kept by the RUT cleaning `re.sub` (digits, hyphen, the
checksum letter in either case). -/
def rutKeep (c : Char) : Bool := c.isDigit || c == '-' || c == 'k' || c == 'K'

/-- The RUT checksum class `[\dkK]`. -/
def rutCheck (c : Char) : Bool := c.isDigit || c == 'k' || c == 'K'

/-- Candidates for the optional literal dot `\.?`, greedy order. -/
def dotOpt (cs : List Char) : List (List Char) :=
  match cs with
  | c :: rest => if c = '.' then [rest, cs] else [cs]
  | [] => [cs]

/-- Candidates for the optional hyphen `[\-]?`, greedy order. -/
def hyphenOpt (cs : List Char) : List (List Char) :=
  match cs with
  | c :: rest => if c = '-' then [rest, cs] else [cs]
  | [] => [cs]

/-- RUT pattern `(\d{1,2})\.?(\d{3})\.?(\d{3})[\-]?([\dkK])` anchored at
the current position, with the engine's backtracking order. -/
def rutAt (cs : List Char) :
    Option (List Char × List Char × List Char × Char) :=
  (try12 cs).findSome? (fun p =>
    (dotOpt p.2).findSome? (fun cs1 =>
      match digits3 cs1 with
      | some (g2, cs2) =>
        (dotOpt cs2).findSome? (fun cs3 =>
          match digits3 cs3 with
          | some (g3, cs4) =>
            (hyphenOpt cs4).findSome? (fun cs5 =>
              match cs5 with
              | k :: _ => if rutCheck k then some (p.1, g2, g3, k) else none
              | [] => none)
          | none => none)
      | none => none))

/-- `re.search` of the RUT pattern. -/
def searchRut : List Char → Option (List Char × List Char × List Char × Char)
  | [] => none
  | c :: rest =>
    match rutAt (c :: rest) with
    | some r => some r
    | none => searchRut rest

/-- Python `str.upper` on one character, as used on the checksum group
(digits unchanged, `k` upper-cased). -/
def pyUpperChar (c : Char) : Char := if c = 'k' then 'K' else c

/-- Model of `OpenAIService._validate_rut_format`: empty input yields
`None`; otherwise all characters except digits, hyphen and the checksum
letter are stripped, the pattern is searched in the cleaned text, a match
is reassembled as `XX.XXX.XXX-C` with the checksum upper-cased, and with
no match the original input is returned unchanged. -/
def _validate_rut_format (s : String) : Option String :=
  if s = "" then none
  else
    let cleaned := s.toList.filter rutKeep
    match searchRut cleaned with
    | some (g1, g2, g3, k) =>
      some (String.mk (g1 ++ '.' :: g2 ++ '.' :: g3 ++ '-' :: [pyUpperChar k]))
    | none => some s

/-- Characters kept by the amount cleaning `re.sub` (digits and dots). -/
def amountKeep (c : Char) : Bool := c.isDigit || c == '.'

/-- Model of Python `float()` on the digits-and-dots alphabet the
cleaning regex produces (signs, exponents, `inf`, `nan`, underscores and
whitespace cannot survive the cleaning, so only the grammar
`digits* (. digits*)?` with at least one digit needs modelling): the
exact decimal value, or `none` where `float()` raises `ValueError`. -/
def pyFloatParse (cs : List Char) : Option ℚ :=
  match cs.dropWhile Char.isDigit with
  | [] =>
    if (cs.takeWhile Char.isDigit).isEmpty then none
    else some (digitsVal (cs.takeWhile Char.isDigit) : ℚ)
  | c :: rest2 =>
    if c = '.' then
      if (rest2.dropWhile Char.isDigit).isEmpty then
        if (cs.takeWhile Char.isDigit).isEmpty && (rest2.takeWhile Char.isDigit).isEmpty
        then none
        else some ((digitsVal (cs.takeWhile Char.isDigit) : ℚ) +
          (digitsVal (rest2.takeWhile Char.isDigit) : ℚ) /
            (10 : ℚ) ^ (rest2.takeWhile Char.isDigit).length)
      else none
    else none

/-- Values at or above this bound round to `inf` in IEEE-754 binary64, so
`float()` yields an infinite (non-finite) result for them without
raising. -/
def floatOverflowBound : ℚ := (2 : ℚ) ^ 1024 - (2 : ℚ) ^ 970

/-- Whether `float()` accepts the string with a finite value. -/
def floatLitFinite (cs : List Char) : Bool :=
  match pyFloatParse cs with
  | some q => decide (q < floatOverflowBound)
  | none => false

/-- Model of `OpenAIService._clean_amount`: empty (falsy) input yields
`None`; otherwise everything except digits and dots is stripped and the
stripped string is returned when `float()` accepts it (whether or not the
value overflows to infinity), `None` when `float()` raises. -/
def _clean_amount (s : String) : Option String :=
  if s = "" then none
  else
    match pyFloatParse (s.toList.filter amountKeep) with
    | some _ => some (String.mk (s.toList.filter amountKeep))
    | none => none

/-- Spec side (C7): a valid float literal per the spec's wording — only
digits and the decimal point, at least one digit, at most one dot. -/
def validFloatLit (cs : List Char) : Bool :=
  cs.all amountKeep && cs.any Char.isDigit && (cs.filter (· == '.')).length ≤ 1

/-- Modelled from the spec, for comparison with `_clean_amount`: the claim
says the stripped string is returned only when it parses as a *finite*
number, and null otherwise. -/
def cleanAmountSpec (s : String) : Option String :=
  if s = "" then none
  else
    if validFloatLit (s.toList.filter amountKeep) &&
        floatLitFinite (s.toList.filter amountKeep)
    then some (String.mk (s.toList.filter amountKeep))
    else none

/-!
DocumentAgent pipeline.  Each stage body sits in a `try` block whose
`except` returns the stage's documented failure value, so stages are
modelled as total functions built from an `Except Unit` body (the error
is any Python exception inside the `try`).  Model-service replies are an
explicit oracle: one free-form text per call site, since the service
contract is just "text in, text out".
-/

/-- Python dict lookup `d.get(k, default)` on a record. -/
def pyGetD (d : Record) (k : String) (v : JsonValue) : JsonValue :=
  (d.lookup k).getD v

/-- Python dict merge `d = dict(a); d.update(b)`, the meaning of the
source's double-splat merge: keys of `a` in order with values overridden
by `b` where present, then keys of `b` not in `a` in `b`'s order. -/
def pyDictMerge (a b : Record) : Record :=
  a.map (fun kv => (kv.1, (b.lookup kv.1).getD kv.2)) ++
    b.filter (fun kv => (a.lookup kv.1).isNone)

/-- Python `str.strip` on a string. -/
def pyStrip (s : String) : String := String.mk (pyStripL s.toList)

/-- The table of `_detect_missing_important_fields`: canonical contact
field names with their recognized name variants, in declaration order. -/
def importantFields : List (String × List String) :=
  [("email", ["email", "correo", "e-mail", "mail"]),
   ("telefono", ["telefono", "teléfono", "fono", "phone"]),
   ("direccion", ["direccion", "dirección", "address", "domicilio"]),
   ("ciudad", ["ciudad", "city", "comuna"]),
   ("codigo_postal", ["codigo_postal", "código postal", "postal", "zip"])]

/-- `data.get(variation, "").strip()` as used in the variant loop:
`AttributeError` unless the looked-up value is a string. -/
def stripTruthyV (v : JsonValue) : Except Unit Bool :=
  match v with
  | jstr s => .ok (pyStrip s != "")
  | _ => .error ()

/-- The variant loop of the detector: succeeds with `true` as soon as one
variation holds a non-blank string; raises on the first non-string
value it reaches. -/
def checkVariants (data : Record) : List String → Except Unit Bool
  | [] => .ok false
  | v :: rest => do
    let t ← stripTruthyV (pyGetD data v (jstr ""))
    if t then .ok true else checkVariants data rest

/-- One field of the detector: the canonical value is fetched with
default `""`; `if not field_value or field_value.strip() == ""` enters the
variant loop (`.strip()` raising on a truthy non-string value); a field
is missing when no variation was found. -/
def fieldMissing (data : Record) (fname : String) (vars : List String) :
    Except Unit Bool :=
  if !truthy (pyGetD data fname (jstr "")) then (checkVariants data vars).map (!·)
  else
    match pyGetD data fname (jstr "") with
    | jstr s => if pyStrip s == "" then (checkVariants data vars).map (!·) else .ok false
    | _ => .error ()

/-- One step of the detector's field loop: append the canonical name when
the field is missing, propagating any raised exception. -/
def detectStep (data : Record) (acc : List String) (fv : String × List String) :
    Except Unit (List String) := do
  if (← fieldMissing data fv.1 fv.2) then pure (acc ++ [fv.1]) else pure acc

/-- Model of `DocumentAgent._detect_missing_important_fields`: canonical
names of the still-missing fields, in declaration order; any reached
non-string value propagates as an exception to the caller. -/
def _detect_missing_important_fields (data : Record) : Except Unit (List String) :=
  importantFields.foldlM (detectStep data) []

/-- The advisory strings of `_generate_processing_notes`. -/
def noteLowQuality : String := "Imagen de baja calidad - algunos datos pueden ser imprecisos"

/-- Advisory string for a missing RUT. -/
def noteNoRut : String := "RUT no detectado - verificar manualmente"

/-- Advisory string for a missing date. -/
def noteNoFecha : String := "Fecha no detectada - verificar manualmente"

/-- Advisory string for low confidence. -/
def noteLowConfidence : String := "Confianza baja - revisar datos extraídos"

/-- `data.get("confidence", 0) < 70`: defined for Python numbers (`bool`
included; `NaN` compares false, `-inf` true); any other type raises
`TypeError`. -/
def pyLt70 : JsonValue → Except Unit Bool
  | jint n => .ok (decide (n < 70))
  | jfloat m e => .ok (decide ((m : ℚ) * (10 : ℚ) ^ (e : ℤ) < 70))
  | jbool _ => .ok true
  | jnan => .ok false
  | jinf neg => .ok neg
  | _ => .error ()

/-- Model of `DocumentAgent._generate_processing_notes`: four
deterministic advisory notes, appended in source order; the confidence
comparison raises on a non-numeric value, losing the whole list. -/
def _generate_processing_notes (data analysis : Record) : Except Unit (List String) := do
  let n1 : List String :=
    match analysis.lookup "quality" with
    | some (jstr q) => if q = "mala" then [noteLowQuality] else []
    | _ => []
  let n2 : List String := if !truthy (pyGetD data "rut" jnull) then [noteNoRut] else []
  let n3 : List String := if !truthy (pyGetD data "fecha" jnull) then [noteNoFecha] else []
  let low ← pyLt70 (pyGetD data "confidence" (jint 0))
  let n4 : List String := if low then [noteLowConfidence] else []
  pure (n1 ++ n2 ++ n3 ++ n4)

/-- The four required fields of the confidence scorer. -/
def requiredFields : List String := ["referencia", "fecha", "total", "nombre"]

/-- The fallback metadata of the scorer's exception handler. -/
def fallbackMetadata : Record :=
  [("confidence", jint 0), ("quality_assessment", jstr "unknown"),
   ("completeness_score", jint 0)]

/-- Quality multiplier lookup `{buena 1.0, media 0.8, mala 0.6}.get(q,
0.8)` after `analysis.get("quality", "media")`: exact rationals stand in
for the float constants — for every reachable product (`completed/4*100`
times the multiplier) the truncated float result equals the exact
rational floor, checked case by case.  An unhashable quality value (list
or dict) raises `TypeError`. -/
def qualityMultiplier (q : JsonValue) : Except Unit ℚ :=
  match q with
  | jstr s => .ok (if s = "buena" then 1 else if s = "media" then 4/5 else if s = "mala" then 3/5 else 4/5)
  | jarr _ => .error ()
  | jobj _ => .error ()
  | _ => .ok (4/5)

/-- Model of `DocumentAgent._generate_confidence_metadata`: count of
truthy required fields, base percentage, quality multiplier,
`min(int(base * multiplier), 100)` (truncation equals floor: the value is
non-negative), plus quality assessment, completeness and the processing
notes; any exception inside — non-dict inputs, unhashable quality,
non-numeric stored confidence during note generation — yields the
fallback metadata. -/
def _generate_confidence_metadata (validated analysis : JsonValue) : Record :=
  let body : Except Unit Record := do
    let data ← match validated with
      | jobj kvs => .ok kvs
      | _ => .error ()
    let completed := (requiredFields.filter (fun f => truthy (pyGetD data f jnull))).length
    let base : ℚ := (completed : ℚ) / (requiredFields.length : ℚ) * 100
    let akvs ← match analysis with
      | jobj kvs => .ok kvs
      | _ => .error ()
    let mult ← qualityMultiplier (pyGetD akvs "quality" (jstr "media"))
    let final : Int := min ⌊base * mult⌋ 100
    let notes ← _generate_processing_notes data akvs
    pure [("confidence", jint final),
          ("quality_assessment", pyGetD akvs "quality" (jstr "unknown")),
          ("completeness_score", jint completed),
          ("processing_notes", jarr (notes.map jstr))]
  match body with
  | .ok r => r
  | .error _ => fallbackMetadata

/-- One free-form model-service reply per call site of the pipeline. -/
structure Oracle where
  analysisText : String
  extractionText : String
  validationText : String
  refinementText : String

/-- Model of `DocumentAgent._analyze_document_type` when the service
call succeeds: the reply parsed by the response extractor.  (A failed
call would return the default analysis through the stage's handler; no
claim quantifies over call failures, so the oracle always replies.) -/
def _analyze_document_type (o : Oracle) : JsonValue :=
  parse_json_response o.analysisText

/-- Model of `DocumentAgent._extract_document_data`: reads
`analysis.get("type", "Boleta")` (raising on a non-dict analysis, which
the stage handler turns into the empty dict) and selects a prompt via
`prompts.get(doc_type, ...)` (raising on an unhashable type value); the
reply is parsed by the response extractor. -/
def _extract_document_data (o : Oracle) (analysis : JsonValue) : JsonValue :=
  match analysis with
  | jobj kvs =>
    match pyGetD kvs "type" (jstr "Boleta") with
    | jarr _ => jobj []
    | jobj _ => jobj []
    | _ => parse_json_response o.extractionText
  | _ => jobj []

/-- The all-blank default record of `_validate_and_refine`, seeded with
the classifier's type. -/
def defaultRecord (tipo : JsonValue) : Record :=
  [("referencia", jstr ""), ("tipoDocumento", tipo), ("numeroDocumento", jstr ""),
   ("fecha", jstr ""), ("moneda", jstr "CLP"), ("nombre", jstr ""),
   ("rut", jstr ""), ("total", jstr ""), ("detalle", jstr ""),
   ("impuestos", jstr ""), ("porcentaje", jstr "")]

/-- Model of `DocumentAgent._validate_and_refine`: an empty or
error-flagged extraction short-circuits to the default record (building
it reads `analysis.get("type", "Boleta")`); otherwise the validation
reply is parsed; any exception returns the extraction unchanged. -/
def _validate_and_refine (o : Oracle) (extracted analysis : JsonValue) : JsonValue :=
  let body : Except Unit JsonValue := do
    let empty ← if !truthy extracted then pure true
      else match extracted with
        | jobj kvs => pure (truthy (pyGetD kvs "error" jnull))
        | _ => .error ()
    if empty then
      match analysis with
      | jobj akvs => pure (jobj (defaultRecord (pyGetD akvs "type" (jstr "Boleta"))))
      | _ => .error ()
    else pure (parse_json_response o.validationText)
  match body with
  | .ok v => v
  | .error _ => extracted

/-- Model of `DocumentAgent._iterative_refinement`: detect missing
fields (a raised exception returns the input unchanged); with none,
return the input; otherwise parse the targeted-refinement reply and merge
it over the input with the double-splat merge (a non-dict reply makes the
merge raise, again returning the input unchanged). -/
def _iterative_refinement (validated : JsonValue) (o : Oracle) : JsonValue :=
  let body : Except Unit JsonValue := do
    let kvs ← match validated with
      | jobj kvs => .ok kvs
      | _ => .error ()
    let missing ← _detect_missing_important_fields kvs
    if missing.isEmpty then pure validated
    else
      match parse_json_response o.refinementText with
      | jobj rkvs => pure (jobj (pyDictMerge kvs rkvs))
      | _ => .error ()
  match body with
  | .ok v => v
  | .error _ => validated

/-- The static fallback record of `DocumentAgent._get_fallback_data`. -/
def _get_fallback_data : Record :=
  [("referencia", jstr ""), ("tipoDocumento", jstr "Boleta"),
   ("numeroDocumento", jstr ""), ("fecha", jstr ""), ("moneda", jstr "CLP"),
   ("nombre", jstr ""), ("rut", jstr ""), ("total", jstr ""), ("detalle", jstr ""),
   ("confidence", jint 0), ("quality_assessment", jstr "unknown"),
   ("processing_notes", jarr [jstr "Agente no disponible - datos de ejemplo"]),
   ("processing_metadata", jobj
     [("agent_version", jstr "1.0.0"), ("processing_steps", jint 0),
      ("document_type", jstr "unknown"), ("confidence_score", jint 0)])]

/-- Model of `DocumentAgent.process_document`: with no client, the static
fallback; otherwise the four stages in sequence, the metadata merge and
the processing-metadata block (reading `analysis.get("type", "unknown")`),
with the outer handler returning the fallback on any escaped exception
(for example a non-dict refined value under the double splat).  The
`context` argument is threaded but never read, as in the source. -/
def process_document (clientReady : Bool) (o : Oracle) (context : Record) : Record :=
  if !clientReady then _get_fallback_data
  else
    let analysis := _analyze_document_type o
    let extracted := _extract_document_data o analysis
    let validated := _validate_and_refine o extracted analysis
    let refined := _iterative_refinement validated o
    let meta := _generate_confidence_metadata refined analysis
    let body : Except Unit Record := do
      let rkvs ← match refined with
        | jobj kvs => .ok kvs
        | _ => .error ()
      let atype ← match analysis with
        | jobj akvs => .ok (pyGetD akvs "type" (jstr "unknown"))
        | _ => .error ()
      let metaBlock := jobj
        [("agent_version", jstr "1.0.0"), ("processing_steps", jint 3),
         ("document_type", atype),
         ("confidence_score", pyGetD meta "confidence" (jint 0))]
      pure (pyDictMerge (pyDictMerge rkvs meta) [("processing_metadata", metaBlock)])
    match body with
    | .ok r => r
    | .error _ => _get_fallback_data

/-!
Claim-side definitions, written from the specification's wording, to be
compared with the source-side models above.
-/

/-- Spec side (C2): number of the four required fields present (truthy)
in the record. -/
def presentCount (d : Record) : Nat :=
  (requiredFields.filter (fun f => truthy (pyGetD d f jnull))).length

/-- Spec side (C2): the quality multiplier table good=1.0, medium=0.8,
bad=0.6, anything else (unknown or absent) = 0.8. -/
def qualityMultSpec (a : Record) : ℚ :=
  match a.lookup "quality" with
  | some (jstr s) =>
    if s = "buena" then 1 else if s = "media" then 4/5 else if s = "mala" then 3/5 else 4/5
  | _ => 4/5

/-- Spec side (C2): `floor(base * multiplier)` clamped to `[0, 100]`,
with `base = presentCount / 4 * 100`. -/
def confidenceSpec (d a : Record) : Int :=
  max 0 (min 100 ⌊((presentCount d : ℚ) / 4 * 100) * qualityMultSpec a⌋)

/-- The record's stored confidence, if any, is an integer (the data
model's type for scores). -/
def confIntOk (d : Record) : Prop :=
  d.lookup "confidence" = none ∨ ∃ n : Int, d.lookup "confidence" = some (jint n)

/-- The analysis's stored quality, if any, is a string (the data model
types quality as a string enum). -/
def qualityStrOk (a : Record) : Prop :=
  a.lookup "quality" = none ∨ ∃ s : String, a.lookup "quality" = some (jstr s)

/-- Spec side (C8): a key is blank when absent or bound to a string that
strips to empty. -/
def blankB (data : Record) (k : String) : Bool :=
  match data.lookup k with
  | none => true
  | some (jstr s) => pyStrip s == ""
  | some _ => false

/-- Spec side (C8): canonical names whose every variant (the canonical
key included) is blank, in declaration order. -/
def missingSpec (data : Record) : List String :=
  (importantFields.filter (fun fv => fv.2.all (blankB data))).map Prod.fst

/-- Every stored value of the record is a string. -/
def allStringsB (data : Record) : Bool := data.all (fun kv => isStrB kv.2)

/-- Spec side (C10): the key is present and bound to a non-string value
(null included). -/
def nonStrPresent (data : Record) (k : String) : Bool :=
  match data.lookup k with
  | some v => !isStrB v
  | none => false

/-- Spec side (C10): the canonical check sends the detector into the
variant loop without raising — the canonical value is falsy, or a string
stripping to empty. -/
def canonEnters (data : Record) (f : String) : Bool :=
  !truthy (pyGetD data f (jstr "")) ||
    (match pyGetD data f (jstr "") with
     | jstr s => pyStrip s == ""
     | _ => false)

/-- Spec side (C9): the classifier reported low image quality. -/
def lowQualityB (a : Record) : Bool :=
  match a.lookup "quality" with
  | some (jstr q) => q == "mala"
  | _ => false

/-- Spec side (C9): the record's rut is missing (falsy). -/
def rutMissingB (d : Record) : Bool := !truthy (pyGetD d "rut" jnull)

/-- Spec side (C9): the record's fecha is missing (falsy). -/
def fechaMissingB (d : Record) : Bool := !truthy (pyGetD d "fecha" jnull)

/-- Spec side (C9): the stored confidence score, defaulting to 0. -/
def confValue (d : Record) : Int :=
  match d.lookup "confidence" with
  | some (jint n) => n
  | _ => 0

/-- Spec side (C9): the four advisory notes, each appended exactly when
its condition holds. -/
def notesSpec (d a : Record) : List String :=
  (if lowQualityB a then [noteLowQuality] else []) ++
  (if rutMissingB d then [noteNoRut] else []) ++
  (if fechaMissingB d then [noteNoFecha] else []) ++
  (if confValue d < 70 then [noteLowConfidence] else [])

/-- Spec side (C10): the detector is sent into some field's variant loop
(canonical value blank or falsy) and reaches a non-string variant value —
every variant listed before it is blank or absent. -/
def raisesInVariants (data : Record) : Prop :=
  ∃ fv ∈ importantFields, canonEnters data fv.1 = true ∧
    ∃ pre bad post, fv.2 = pre ++ bad :: post ∧
      (∀ w ∈ pre, blankB data w = true) ∧ nonStrPresent data bad = true

/-!
Theorems.  Shared helper lemmas first, then one theorem per claim (with
counterexamples and witnesses where the claim's status calls for them).
-/

theorem lookup_keyMap (a : Record) (g : String → JsonValue → JsonValue) (k : String) :
    (a.map (fun kv => (kv.1, g kv.1 kv.2))).lookup k = (a.lookup k).map (g k) := by
  induction a with
  | nil => rfl
  | cons kv rest ih =>
    by_cases h : k = kv.1
    · subst h
      simp [List.lookup]
    · simp [List.lookup, beq_eq_false_iff_ne.mpr h, ih]

theorem lookup_keyFilter (b : Record) (p : String → Bool) (k : String) :
    (b.filter (fun kv => p kv.1)).lookup k = if p k then b.lookup k else none := by
  induction b with
  | nil => simp
  | cons kv rest ih =>
    by_cases h : k = kv.1
    · subst h
      cases hp : p kv.1 <;> simp [List.lookup, hp, ih]
    · cases hp : p kv.1 <;>
        simp [List.lookup, hp, beq_eq_false_iff_ne.mpr h, ih]

theorem lookup_append (l₁ l₂ : Record) (k : String) :
    (l₁ ++ l₂).lookup k =
      match l₁.lookup k with
      | some v => some v
      | none => l₂.lookup k := by
  induction l₁ with
  | nil => simp [List.lookup]
  | cons kv rest ih =>
    by_cases h : k = kv.1
    · subst h
      simp [List.lookup]
    · simp [List.lookup, beq_eq_false_iff_ne.mpr h, ih]

/-- The double-splat merge, described through lookups: a key of the later
dict always takes the later value; a key absent from the later dict keeps
the earlier value. -/
theorem pyDictMerge_lookup (a b : Record) (k : String) :
    (pyDictMerge a b).lookup k =
      match a.lookup k with
      | some v => some ((b.lookup k).getD v)
      | none => b.lookup k := by
  unfold pyDictMerge
  rw [lookup_append]
  rw [lookup_keyMap a (fun s v => (b.lookup s).getD v) k]
  have hf := lookup_keyFilter b (fun s => (a.lookup s).isNone) k
  cases ha : a.lookup k with
  | some v => simp [ha, hf]
  | none => simp [ha, hf]

/-- Claim C3: with no model-service client, the orchestrator performs no
model-calling stage (its result does not depend on the service oracle)
and returns the static fallback record, whose confidence is exactly 0,
whose document type is exactly "Boleta", and whose processing notes say
the agent is unavailable. -/
theorem C3_client_none_fallback :
    (∀ (o : Oracle) (context : Record),
      process_document false o context = _get_fallback_data)
    ∧ _get_fallback_data.lookup "confidence" = some (jint 0)
    ∧ _get_fallback_data.lookup "tipoDocumento" = some (jstr "Boleta")
    ∧ _get_fallback_data.lookup "processing_notes" =
        some (jarr [jstr "Agente no disponible - datos de ejemplo"]) :=
  ⟨fun _ _ => rfl, rfl, rfl, rfl⟩

/-- Claim C4, counterexample: the double-splat merge overwrites with the
later stage's value even when that value is empty — a record holding a
non-blank email merged with a refinement result holding an empty email
ends with the empty value, while the claim requires the prior value to
survive. -/
theorem C4_counterexample :
    pyDictMerge [("email", jstr "a@b.cl")] [("email", jstr "")] = [("email", jstr "")]
    ∧ truthy (jstr "") = false
    ∧ jstr "" ≠ jstr "a@b.cl" := by
  refine ⟨rfl, rfl, ?_⟩
  intro h
  exact absurd (JsonValue.jstr.inj h) (by decide)

/-- Claim C4 (amended): merging a later stage's result overwrites the
earlier value for every key the later stage returns — with empty values
included — and never deletes keys: keys absent from the later result keep
their prior value, and every key present before the merge is present
afterwards. -/
theorem C4_merge_amended (a b : Record) :
    (∀ k v, b.lookup k = some v → (pyDictMerge a b).lookup k = some v)
    ∧ (∀ k, b.lookup k = none → (pyDictMerge a b).lookup k = a.lookup k)
    ∧ (∀ k, (a.lookup k).isSome → ((pyDictMerge a b).lookup k).isSome) := by
  refine ⟨?_, ?_, ?_⟩
  · intro k v hb
    rw [pyDictMerge_lookup]
    cases ha : a.lookup k <;> simp [hb]
  · intro k hb
    rw [pyDictMerge_lookup]
    cases ha : a.lookup k <;> simp [hb]
  · intro k ha
    rw [pyDictMerge_lookup]
    cases h : a.lookup k with
    | some v => simp
    | none => rw [h] at ha; cases ha

/-- Claim C4 (amended) witness at a concrete merge. -/
theorem C4_merge_amended_witness :
    (pyDictMerge [("email", jstr "a@b.cl"), ("total", jstr "5")]
      [("email", jstr "b@c.cl")]).lookup "total" = some (jstr "5") := by
  have h := (C4_merge_amended [("email", jstr "a@b.cl"), ("total", jstr "5")]
    [("email", jstr "b@c.cl")]).2.1 "total" rfl
  rw [h]
  rfl

theorem lowq_note_eq (a : Record) :
    (match a.lookup "quality" with
     | some (jstr q) => if q = "mala" then [noteLowQuality] else []
     | _ => ([] : List String)) =
      (if lowQualityB a then [noteLowQuality] else []) := by
  unfold lowQualityB
  cases h : a.lookup "quality" with
  | none => simp
  | some v => cases v <;> simp

/-- With an integer (or absent) stored confidence the note generator
never raises and produces exactly the four spec-side advisories. -/
theorem notes_ok_of_confInt (d a : Record) (hc : confIntOk d) :
    _generate_processing_notes d a = .ok (notesSpec d a) := by
  unfold _generate_processing_notes notesSpec
  rw [lowq_note_eq]
  rcases hc with h | ⟨n, h⟩ <;>
    simp [pyGetD, h, pyLt70, Bind.bind, Except.bind, rutMissingB, fechaMissingB,
      confValue, pure, Except.pure]

theorem note_if_nil_bool (b : Bool) (s : String) :
    ((if b then [s] else []) = ([] : List String)) ↔ b = false := by
  cases b <;> simp

theorem note_if_nil_prop (p : Prop) [Decidable p] (s : String) :
    ((if p then [s] else []) = ([] : List String)) ↔ ¬p := by
  by_cases h : p <;> simp [h]

/-- Claim C9, counterexample: on a record storing a non-numeric
confidence value the comparison against 70 raises, so no notes list is
generated at all, while the claim promises deterministic notes for every
record. -/
theorem C9_counterexample :
    _generate_processing_notes [("confidence", jstr "high")] [] = .error ()
    ∧ ∀ l : List String,
        _generate_processing_notes [("confidence", jstr "high")] [] ≠ .ok l := by
  refine ⟨rfl, ?_⟩
  intro l h
  rw [show _generate_processing_notes [("confidence", jstr "high")] [] = .error ()
    from rfl] at h
  exact Except.noConfusion h

/-- Claim C9 (amended): for every record whose stored confidence, if any,
is an integer, and every analysis, the processing notes are generated
deterministically — low image quality, a missing rut, a missing fecha and
a sub-70 confidence each append exactly one fixed advisory string — and
the notes list is empty exactly when none of the four conditions holds. -/
theorem C9_notes_amended (d a : Record) (hc : confIntOk d) :
    _generate_processing_notes d a = .ok (notesSpec d a)
    ∧ (_generate_processing_notes d a = .ok ([] : List String) ↔
        lowQualityB a = false ∧ rutMissingB d = false ∧ fechaMissingB d = false ∧
          ¬(confValue d < 70)) := by
  have h := notes_ok_of_confInt d a hc
  refine ⟨h, ?_⟩
  rw [h]
  constructor
  · intro h0
    have h1 : notesSpec d a = [] := Except.ok.inj h0
    unfold notesSpec at h1
    simp only [List.append_eq_nil, note_if_nil_bool, note_if_nil_prop] at h1
    exact ⟨by simpa using h1.1.1.1, by simpa using h1.1.1.2, by simpa using h1.1.2, h1.2⟩
  · intro ⟨h1, h2, h3, h4⟩
    unfold notesSpec
    rw [h1, h2, h3]
    simp [h4]

/-- Claim C9 (amended) witness: a clean record produces no notes. -/
theorem C9_notes_amended_witness :
    _generate_processing_notes
      [("rut", jstr "76.123.456-7"), ("fecha", jstr "15/10/2024"), ("confidence", jint 80)]
      [("quality", jstr "buena")] = .ok ([] : List String) := by
  have h := (C9_notes_amended
    [("rut", jstr "76.123.456-7"), ("fecha", jstr "15/10/2024"), ("confidence", jint 80)]
    [("quality", jstr "buena")] (Or.inr ⟨80, rfl⟩)).1
  rw [h]
  rfl

theorem qualityMultSpec_nonneg (a : Record) : (0 : ℚ) ≤ qualityMultSpec a := by
  unfold qualityMultSpec
  split
  · split_ifs <;> norm_num
  · norm_num

/-- Claim C2, counterexample: a record holding all four required fields
but a null stored confidence makes the note generator raise inside the
scorer's `try`, so the scorer returns the fallback confidence 0 where the
claim's formula demands 100. -/
theorem C2_counterexample :
    (_generate_confidence_metadata
        (jobj [("referencia", jstr "r"), ("fecha", jstr "f"), ("total", jstr "t"),
               ("nombre", jstr "n"), ("confidence", jnull)])
        (jobj [("quality", jstr "buena")])).lookup "confidence" = some (jint 0)
    ∧ confidenceSpec
        [("referencia", jstr "r"), ("fecha", jstr "f"), ("total", jstr "t"),
         ("nombre", jstr "n"), ("confidence", jnull)]
        [("quality", jstr "buena")] = 100 := by
  refine ⟨rfl, ?_⟩
  have h1 : presentCount
      [("referencia", jstr "r"), ("fecha", jstr "f"), ("total", jstr "t"),
       ("nombre", jstr "n"), ("confidence", jnull)] = 4 := rfl
  have h2 : qualityMultSpec [("quality", jstr "buena")] = 1 := rfl
  unfold confidenceSpec
  rw [h1, h2]
  norm_num

/-- Claim C2 (amended): for every record whose stored confidence, if any,
is an integer, and every analysis whose quality, if any, is a string, the
scorer returns `floor((present/4 * 100) * multiplier)` clamped to
`[0, 100]`, with multiplier good=1.0, medium=0.8, bad=0.6 and 0.8
otherwise. -/
theorem C2_confidence_amended (d a : Record) (hc : confIntOk d) (hq : qualityStrOk a) :
    (_generate_confidence_metadata (jobj d) (jobj a)).lookup "confidence" =
      some (jint (confidenceSpec d a)) := by
  have hmult : qualityMultiplier (pyGetD a "quality" (jstr "media")) =
      .ok (qualityMultSpec a) := by
    rcases hq with h | ⟨s, h⟩ <;>
      simp [pyGetD, h, qualityMultiplier, qualityMultSpec]
  have hnotes := notes_ok_of_confInt d a hc
  have hbase : (0 : ℚ) ≤ ((presentCount d : ℚ) / 4 * 100) * qualityMultSpec a := by
    have := qualityMultSpec_nonneg a
    positivity
  have hfloor : (0 : ℤ) ≤ ⌊((presentCount d : ℚ) / 4 * 100) * qualityMultSpec a⌋ :=
    Int.floor_nonneg.mpr hbase
  unfold _generate_confidence_metadata
  simp only [Bind.bind, Except.bind, hmult, hnotes, pure, Except.pure]
  show List.lookup "confidence"
      [("confidence", jint (min
        ⌊(((requiredFields.filter (fun f => truthy (pyGetD d f jnull))).length : ℚ) /
            (requiredFields.length : ℚ) * 100) * qualityMultSpec a⌋ 100)),
       ("quality_assessment", pyGetD a "quality" (jstr "unknown")),
       ("completeness_score", jint ((requiredFields.filter
          (fun f => truthy (pyGetD d f jnull))).length)),
       ("processing_notes", jarr ((notesSpec d a).map jstr))] =
    some (jint (confidenceSpec d a))
  rw [List.lookup]
  show some _ = some _
  unfold confidenceSpec
  congr 2
  have hlen : ((requiredFields.length : ℚ)) = 4 := by
    rw [show requiredFields.length = 4 from rfl]
    norm_num
  rw [hlen]
  show min ⌊((presentCount d : ℚ) / 4 * 100) * qualityMultSpec a⌋ 100 = _
  rw [max_eq_right (le_min (by norm_num) hfloor), min_comm]

/-- Claim C2 (amended) witness: two of four required fields at medium
quality score 40. -/
theorem C2_confidence_amended_witness :
    (_generate_confidence_metadata
        (jobj [("referencia", jstr "F123"), ("fecha", jstr "15/10/2024")])
        (jobj [("quality", jstr "media")])).lookup "confidence" = some (jint 40) := by
  have h := C2_confidence_amended
    [("referencia", jstr "F123"), ("fecha", jstr "15/10/2024")]
    [("quality", jstr "media")] (Or.inl rfl) (Or.inr ⟨"media", rfl⟩)
  rw [h]
  have h1 : presentCount [("referencia", jstr "F123"), ("fecha", jstr "15/10/2024")] = 2 := rfl
  have h2 : qualityMultSpec [("quality", jstr "media")] = 4/5 := rfl
  have h3 : confidenceSpec [("referencia", jstr "F123"), ("fecha", jstr "15/10/2024")]
      [("quality", jstr "media")] = 40 := by
    unfold confidenceSpec
    rw [h1, h2]
    norm_num
  rw [h3]

theorem lookup_isStr (data : Record) (h : allStringsB data = true) (k : String)
    (v : JsonValue) (hl : data.lookup k = some v) : isStrB v = true := by
  induction data with
  | nil => cases hl
  | cons kv rest ih =>
    have hall : isStrB kv.2 = true ∧ allStringsB rest = true := by
      simpa [allStringsB] using h
    by_cases hk : k = kv.1
    · subst hk
      simp [List.lookup] at hl
      rw [← hl]
      exact hall.1
    · rw [List.lookup, beq_eq_false_iff_ne.mpr hk] at hl
      exact ih hall.2 hl

theorem checkVariants_of_strings (data : Record) (h : allStringsB data = true)
    (vs : List String) :
    checkVariants data vs = .ok (vs.any (fun w => !blankB data w)) := by
  induction vs with
  | nil => rfl
  | cons w ws ih =>
    unfold checkVariants
    cases hl : data.lookup w with
    | none =>
      have hb : blankB data w = true := by simp [blankB, hl]
      simp [pyGetD, hl, stripTruthyV, pyStrip, pyStripL, Bind.bind, Except.bind, ih, hb]
    | some v =>
      have hs := lookup_isStr data h w v hl
      cases v <;> simp [isStrB] at hs
      rename_i s
      have hb : blankB data w = (pyStrip s == "") := by simp [blankB, hl]
      cases hc : pyStrip s == "" <;>
        simp [pyGetD, hl, stripTruthyV, Bind.bind, Except.bind, ih, hb, hc, bne]

theorem all_eq_bnot_any (p : String → Bool) (l : List String) :
    l.all p = !l.any (fun x => !p x) := by
  induction l with
  | nil => rfl
  | cons x xs ih => cases hp : p x <;> simp [hp, ih]

theorem fieldMissing_of_strings (data : Record) (h : allStringsB data = true)
    (f : String) (vs : List String) :
    fieldMissing data f vs = .ok (blankB data f && vs.all (blankB data)) := by
  have hcv := checkVariants_of_strings data h vs
  have hall : (vs.any (fun w => !blankB data w)) = !vs.all (blankB data) := by
    rw [all_eq_bnot_any]
    simp
  unfold fieldMissing
  cases hl : data.lookup f with
  | none =>
    have hb : blankB data f = true := by simp [blankB, hl]
    simp [pyGetD, hl, truthy, hcv, hall, hb, Except.map]
  | some v =>
    have hs := lookup_isStr data h f v hl
    cases v <;> simp [isStrB] at hs
    rename_i s
    have hb : blankB data f = (pyStrip s == "") := by simp [blankB, hl]
    by_cases hse : s = ""
    · subst hse
      simp [pyGetD, hl, truthy, hcv, hall, hb, Except.map, pyStrip, pyStripL]
    · cases hc : pyStrip s == "" <;>
        simp [pyGetD, hl, truthy, hse, hcv, hall, hb, hc, Except.map]

theorem detectStep_of_strings (data : Record) (h : allStringsB data = true)
    (acc : List String) (fv : String × List String) :
    detectStep data acc fv =
      .ok (if blankB data fv.1 && fv.2.all (blankB data) then acc ++ [fv.1] else acc) := by
  unfold detectStep
  rw [fieldMissing_of_strings data h fv.1 fv.2]
  cases hb : blankB data fv.1 && fv.2.all (blankB data) <;>
    simp [hb, Bind.bind, Except.bind, pure, Except.pure]

theorem detect_go_of_strings (data : Record) (h : allStringsB data = true) :
    ∀ (fs : List (String × List String)) (acc : List String),
      fs.foldlM (detectStep data) acc
      = .ok (acc ++
          (fs.filter (fun fv => blankB data fv.1 && fv.2.all (blankB data))).map Prod.fst) := by
  intro fs
  induction fs with
  | nil =>
    intro acc
    rw [List.foldlM_nil]
    show Except.ok acc = _
    simp
  | cons fv fs ih =>
    intro acc
    rw [List.foldlM_cons, detectStep_of_strings data h acc fv]
    cases hb : blankB data fv.1 && fv.2.all (blankB data) with
    | true =>
      simp only [if_true]
      show List.foldlM (detectStep data) (acc ++ [fv.1]) fs = _
      rw [ih (acc ++ [fv.1])]
      simp [List.filter_cons, hb]
    | false =>
      simp only [Bool.false_eq_true, if_false]
      show List.foldlM (detectStep data) acc fs = _
      rw [ih acc]
      simp [List.filter_cons, hb]

/-- Claim C8, counterexample: a record binding a contact variant to null
makes the detector raise (`.strip()` on a non-string) instead of
returning any list of missing fields. -/
theorem C8_counterexample :
    _detect_missing_important_fields [("telefono", jnull)] = .error ()
    ∧ ∀ l : List String,
        _detect_missing_important_fields [("telefono", jnull)] ≠ .ok l := by
  refine ⟨rfl, ?_⟩
  intro l h
  rw [show _detect_missing_important_fields [("telefono", jnull)] = .error ()
    from rfl] at h
  exact Except.noConfusion h

/-- Claim C8 (amended): for every record all of whose stored values are
strings, the detector returns exactly the canonical contact fields for
which neither the canonical key nor any known name variant holds a
non-blank value, in declaration order. -/
theorem C8_detector_amended (data : Record) (h : allStringsB data = true) :
    _detect_missing_important_fields data = .ok (missingSpec data) := by
  unfold _detect_missing_important_fields
  rw [detect_go_of_strings data h importantFields []]
  unfold missingSpec
  congr 1
  rw [List.nil_append]
  congr 1
  apply List.filter_congr
  intro fv hfv
  simp only [importantFields, List.mem_cons, List.not_mem_nil, or_false] at hfv
  rcases hfv with rfl | rfl | rfl | rfl | rfl <;>
    (show (blankB data _ && List.all _ (blankB data)) = List.all _ (blankB data);
     rw [List.all_cons];
     cases blankB data _ <;> simp)

/-- Claim C8 (amended) witness: the variant `correo` counts as the
canonical `email`, which is therefore not listed as missing. -/
theorem C8_detector_amended_witness :
    _detect_missing_important_fields [("correo", jstr "a@b.cl")] =
      .ok ["telefono", "direccion", "ciudad", "codigo_postal"] := by
  have h := C8_detector_amended [("correo", jstr "a@b.cl")] rfl
  rw [h]
  rfl

theorem checkVariants_error (data : Record) :
    ∀ (pre : List String) (bad : String) (post : List String),
      (∀ w ∈ pre, blankB data w = true) → nonStrPresent data bad = true →
      checkVariants data (pre ++ bad :: post) = .error () := by
  intro pre
  induction pre with
  | nil =>
    intro bad post _ hbad
    unfold checkVariants
    unfold nonStrPresent at hbad
    cases hl : data.lookup bad with
    | none => rw [hl] at hbad; cases hbad
    | some v =>
      rw [hl] at hbad
      cases v <;> simp [isStrB] at hbad <;>
        simp [pyGetD, hl, stripTruthyV, Bind.bind, Except.bind]
  | cons w pre ih =>
    intro bad post hpre hbad
    have hw : blankB data w = true := hpre w (List.mem_cons_self w pre)
    have hrest : ∀ x ∈ pre, blankB data x = true :=
      fun x hx => hpre x (List.mem_cons_of_mem w hx)
    rw [List.cons_append]
    unfold checkVariants
    unfold blankB at hw
    cases hl : data.lookup w with
    | none =>
      simp [pyGetD, hl, stripTruthyV, pyStrip, pyStripL, Bind.bind, Except.bind,
        ih bad post hrest hbad]
    | some v =>
      rw [hl] at hw
      cases v <;> try (simp at hw)
      rename_i s
      simp [pyGetD, hl, stripTruthyV, Bind.bind, Except.bind, hw,
        ih bad post hrest hbad]

theorem fieldMissing_error (data : Record) (f : String) (vs : List String)
    (hc : canonEnters data f = true)
    (pre : List String) (bad : String) (post : List String)
    (hvs : vs = pre ++ bad :: post)
    (hpre : ∀ w ∈ pre, blankB data w = true)
    (hbad : nonStrPresent data bad = true) :
    fieldMissing data f vs = .error () := by
  subst hvs
  have hcv := checkVariants_error data pre bad post hpre hbad
  unfold canonEnters at hc
  unfold fieldMissing
  cases ht : truthy (pyGetD data f (jstr "")) with
  | false => simp [ht, hcv, Except.map]
  | true =>
    rw [ht] at hc
    simp only [Bool.not_true, Bool.false_or] at hc
    cases hv : pyGetD data f (jstr "") with
    | jstr s =>
      rw [hv] at hc
      have hc2 : pyStrip s = "" := by simpa using hc
      simp [ht, hv, hc2, hcv, Except.map]
    | _ => rw [hv] at hc; cases hc

theorem detect_error_of_mem (data : Record) :
    ∀ (fs : List (String × List String)) (acc : List String),
      (∃ fv ∈ fs, fieldMissing data fv.1 fv.2 = .error ()) →
      fs.foldlM (detectStep data) acc = .error () := by
  intro fs
  induction fs with
  | nil =>
    intro acc h
    rcases h with ⟨fv, hmem, _⟩
    cases hmem
  | cons fv fs ih =>
    intro acc h
    rw [List.foldlM_cons]
    cases hf : fieldMissing data fv.1 fv.2 with
    | error e =>
      have hstep : detectStep data acc fv = .error e := by
        unfold detectStep
        rw [hf]
        rfl
      rw [hstep]
      rfl
    | ok b =>
      have hstep : detectStep data acc fv = .ok (if b then acc ++ [fv.1] else acc) := by
        unfold detectStep
        rw [hf]
        cases b <;> rfl
      rw [hstep]
      show List.foldlM (detectStep data) (if b then acc ++ [fv.1] else acc) fs = _
      apply ih
      rcases h with ⟨fw, hmem, herr⟩
      rcases List.mem_cons.mp hmem with rfl | hmem2
      · rw [hf] at herr
        cases herr
      · exact ⟨fw, hmem2, herr⟩

/-- Claim C10 (amended): when the detector is sent into a field's variant
loop (canonical value blank or absent) and every variant before some
non-string-valued variant is blank or absent, the detector raises; the
refinement stage catches this at its boundary and returns the record
unchanged — for every possible model-service reply, so no refinement is
merged. -/
theorem C10_variant_exception_amended (data : Record) (h : raisesInVariants data) :
    _detect_missing_important_fields data = .error ()
    ∧ ∀ o : Oracle, _iterative_refinement (jobj data) o = jobj data := by
  have herr : _detect_missing_important_fields data = .error () := by
    unfold _detect_missing_important_fields
    rcases h with ⟨fv, hmem, hcanon, pre, bad, post, hvs, hpre, hbad⟩
    exact detect_error_of_mem data importantFields []
      ⟨fv, hmem, fieldMissing_error data fv.1 fv.2 hcanon pre bad post hvs hpre hbad⟩
  refine ⟨herr, ?_⟩
  intro o
  unfold _iterative_refinement
  simp [herr, Bind.bind, Except.bind]

/-- Claim C10, counterexample: with `correo` non-blank the variant loop
breaks before reaching the null-valued `mail` variant, so the detector
does not raise, and a targeted-refinement reply is merged into the
record — the claim's promised exception and unchanged record both fail. -/
theorem C10_counterexample :
    _detect_missing_important_fields [("correo", jstr "a@b.cl"), ("mail", jnull)] =
      .ok ["telefono", "direccion", "ciudad", "codigo_postal"]
    ∧ _iterative_refinement (jobj [("correo", jstr "a@b.cl"), ("mail", jnull)])
        ⟨"", "", "", "\x7b\"telefono\": \"+56911111111\"\x7d"⟩ =
      jobj [("correo", jstr "a@b.cl"), ("mail", jnull),
            ("telefono", jstr "+56911111111")]
    ∧ jobj [("correo", jstr "a@b.cl"), ("mail", jnull),
            ("telefono", jstr "+56911111111")] ≠
        jobj [("correo", jstr "a@b.cl"), ("mail", jnull)] := by
  refine ⟨rfl, rfl, ?_⟩
  intro h
  have h2 := JsonValue.jobj.inj h
  exact absurd (congrArg List.length h2) (by decide)

/-- Claim C10 (amended) witness: a null `fono` variant behind two blank
variants raises and leaves the record unchanged. -/
theorem C10_variant_exception_amended_witness :
    _detect_missing_important_fields [("correo", jstr "x"), ("fono", jnull)] = .error ()
    ∧ _iterative_refinement (jobj [("correo", jstr "x"), ("fono", jnull)])
        ⟨"", "", "", ""⟩ = jobj [("correo", jstr "x"), ("fono", jnull)] := by
  have h := C10_variant_exception_amended [("correo", jstr "x"), ("fono", jnull)]
    ⟨("telefono", ["telefono", "teléfono", "fono", "phone"]), by decide, rfl,
     ["telefono", "teléfono"], "fono", ["phone"], rfl, by decide, rfl⟩
  exact ⟨h.1, h.2 ⟨"", "", "", ""⟩⟩

theorem amountKeep_dot {c : Char} (hk : amountKeep c = true)
    (hd : c.isDigit = false) : c = '.' := by
  unfold amountKeep at hk
  rw [hd] at hk
  simpa using hk

theorem digit_not_dot {c : Char} (hd : c.isDigit = true) : (c == '.') = false := by
  cases h : c == '.' with
  | false => rfl
  | true =>
    rw [eq_of_beq h] at hd
    exact absurd hd (by decide)

theorem any_of_all_digits {l : List Char} (h : l.all Char.isDigit = true) :
    l.any Char.isDigit = !l.isEmpty := by
  cases l with
  | nil => rfl
  | cons x xs =>
    have hx : x.isDigit = true := by
      have := List.all_eq_true.mp h x (List.mem_cons_self x xs)
      simpa using this
    simp [hx]

theorem no_dots_of_all_digits {l : List Char} (h : l.all Char.isDigit = true) :
    l.filter (· == '.') = [] := by
  rw [List.filter_eq_nil]
  intro a ha
  have := List.all_eq_true.mp h a ha
  simp [digit_not_dot (by simpa using this)]

theorem dropWhile_head_false {α : Type} {p : α → Bool} :
    ∀ {l : List α} {c : α} {r : List α}, l.dropWhile p = c :: r → p c = false := by
  intro l
  induction l with
  | nil => intro c r h; cases h
  | cons x xs ih =>
    intro c r h
    rw [List.dropWhile_cons] at h
    by_cases hx : p x = true
    · rw [if_pos hx] at h
      exact ih h
    · rw [if_neg hx] at h
      cases h
      exact Bool.eq_false_iff.mpr hx

/-- `float()` accepts a cleaned string exactly when the spec's
characterization holds: at least one digit and at most one dot. -/
theorem pyFloatParse_isSome (cs : List Char) (hall : cs.all amountKeep = true) :
    (pyFloatParse cs).isSome = validFloatLit cs := by
  unfold pyFloatParse validFloatLit
  have hIR := List.takeWhile_append_dropWhile (p := Char.isDigit) (l := cs)
  cases hR : cs.dropWhile Char.isDigit with
  | nil =>
    rw [hR, List.append_nil] at hIR
    have hdig : cs.all Char.isDigit = true := by
      rw [← hIR]
      exact List.all_takeWhile
    rw [hIR, hall, any_of_all_digits hdig, no_dots_of_all_digits hdig]
    cases hE : cs.isEmpty <;> simp [hE]
  | cons c rest2 =>
    have hcd : c.isDigit = false := dropWhile_head_false hR
    obtain ⟨I, hI⟩ : ∃ I, cs.takeWhile Char.isDigit = I := ⟨_, rfl⟩
    rw [hR, hI] at hIR
    have hIdig : I.all Char.isDigit = true := by
      rw [← hI]
      exact List.all_takeWhile
    have hsplit : cs = I ++ c :: rest2 := hIR.symm
    subst hsplit
    have hkc : amountKeep c = true := by
      have := List.all_eq_true.mp hall c (by simp)
      simpa using this
    have hc : c = '.' := amountKeep_dot hkc hcd
    subst hc
    have hallrest2 : rest2.all amountKeep = true := by
      simp only [List.all_append, List.all_cons, Bool.and_eq_true] at hall
      exact hall.2.2
    rw [hI, hall]
    dsimp only
    rw [if_pos rfl]
    have hIdots : I.filter (· == '.') = [] := no_dots_of_all_digits hIdig
    have hIany : I.any Char.isDigit = !I.isEmpty := any_of_all_digits hIdig
    have hIR2 := List.takeWhile_append_dropWhile (p := Char.isDigit) (l := rest2)
    cases hR3 : rest2.dropWhile Char.isDigit with
    | nil =>
      rw [hR3, List.append_nil] at hIR2
      have hdig2 : rest2.all Char.isDigit = true := by
        rw [← hIR2]
        exact List.all_takeWhile
      rw [hIR2]
      simp only [List.isEmpty_nil, if_pos rfl, List.any_append, List.any_cons,
        List.filter_append, List.filter_cons, hIdots, hIany,
        any_of_all_digits hdig2, no_dots_of_all_digits hdig2]
      have hdotdig : ('.' : Char).isDigit = false := by decide
      have hdotdot : (('.' : Char) == '.') = true := by decide
      rw [hdotdig, hdotdot]
      cases hIE : I.isEmpty <;> cases hRE : rest2.isEmpty <;> simp
    | cons d rest4 =>
      have hdd : d.isDigit = false := dropWhile_head_false hR3
      obtain ⟨F, hF⟩ : ∃ F, rest2.takeWhile Char.isDigit = F := ⟨_, rfl⟩
      rw [hR3, hF] at hIR2
      have hFdig : F.all Char.isDigit = true := by
        rw [← hF]
        exact List.all_takeWhile
      have hsplit2 : rest2 = F ++ d :: rest4 := hIR2.symm
      subst hsplit2
      have hkd : amountKeep d = true := by
        have := List.all_eq_true.mp hallrest2 d (by simp)
        simpa using this
      have hd : d = '.' := amountKeep_dot hkd hdd
      subst hd
      have hFdots : F.filter (· == '.') = [] := no_dots_of_all_digits hFdig
      have hdotdot : (('.' : Char) == '.') = true := by decide
      simp only [List.isEmpty_cons, List.filter_append, List.filter_cons,
        hIdots, hFdots, hdotdot]
      simp

theorem filter_all_amountKeep (l : List Char) :
    (l.filter amountKeep).all amountKeep = true := by
  rw [List.all_eq_true]
  intro a ha
  have := (List.mem_filter.mp ha).2
  simpa using this

/-- Claim C7 (amended): the amount normalizer strips every character
except digits and dots; a non-empty input yields the stripped string
exactly when the stripped string has at least one digit and at most one
dot (so that `float()` accepts it — an overflowing literal still parses,
to infinity, and is still returned), and null otherwise; empty input
yields null.  The claim's examples hold. -/
theorem C7_amount_amended :
    (∀ s : String, s ≠ "" →
      _clean_amount s =
        if validFloatLit (s.toList.filter amountKeep) = true
        then some (String.mk (s.toList.filter amountKeep)) else none)
    ∧ _clean_amount "" = none
    ∧ _clean_amount "$15.000 CLP" = some "15.000"
    ∧ _clean_amount "abc" = none := by
  refine ⟨?_, rfl, rfl, rfl⟩
  intro s hs
  unfold _clean_amount
  rw [if_neg hs]
  have h := pyFloatParse_isSome (s.toList.filter amountKeep)
    (filter_all_amountKeep s.toList)
  cases hp : pyFloatParse (s.toList.filter amountKeep) with
  | some q =>
    rw [hp] at h
    have hv : validFloatLit (s.toList.filter amountKeep) = true := by
      rw [← h]
      rfl
    rw [if_pos hv]
  | none =>
    rw [hp] at h
    have hv : validFloatLit (s.toList.filter amountKeep) = false := by
      rw [← h]
      rfl
    rw [if_neg]
    intro hvalid
    rw [hvalid] at hv
    exact Bool.noConfusion hv

/-- Claim C7 (amended) witness at a parseable concrete input. -/
theorem C7_amount_amended_witness : _clean_amount "7.5 USD" = some "7.5" := by
  have h := C7_amount_amended.1 "7.5 USD" (by decide)
  rw [h]
  rfl

set_option maxRecDepth 8000 in
/-- Claim C7, counterexample: four hundred nines strip to themselves and
`float()` accepts them, but with an overflowing — hence non-finite —
value; the code returns the stripped string while the claim (spec-side
`cleanAmountSpec`, which demands a finite parse) returns null. -/
theorem C7_counterexample :
    _clean_amount (String.mk (List.replicate 400 '9')) =
      some (String.mk (List.replicate 400 '9'))
    ∧ floatLitFinite (List.replicate 400 '9') = false
    ∧ cleanAmountSpec (String.mk (List.replicate 400 '9')) = none := by
  have hne : String.mk (List.replicate 400 '9') ≠ "" := by
    intro h
    have h2 := congrArg String.data h
    simp at h2
  have hq : pyFloatParse (List.replicate 400 '9') =
      some ((digitsVal (List.replicate 400 '9') : ℕ) : ℚ) := rfl
  have hfin : floatLitFinite (List.replicate 400 '9') = false := by
    unfold floatLitFinite
    rw [hq]
    rw [decide_eq_false_iff_not]
    intro hlt
    have hN : (2 : ℕ) ^ 1024 ≤ digitsVal (List.replicate 400 '9') := by decide
    have h1 : ((2 : ℚ)) ^ 1024 ≤ ((digitsVal (List.replicate 400 '9') : ℕ) : ℚ) := by
      exact_mod_cast hN
    have h2 : floatOverflowBound ≤ (2 : ℚ) ^ 1024 := by
      unfold floatOverflowBound
      have hp : (0 : ℚ) ≤ 2 ^ 970 := by positivity
      linarith
    linarith
  refine ⟨rfl, hfin, ?_⟩
  unfold cleanAmountSpec
  rw [if_neg hne, if_neg]
  rw [show (String.mk (List.replicate 400 '9')).toList.filter amountKeep =
    List.replicate 400 '9' from rfl, hfin]
  simp

theorem fencedJson_eq_none (cs : List Char) (h : hasSubL fencePat cs = false) :
    fencedJson cs = none := by
  induction cs with
  | nil => rfl
  | cons c rest ih =>
    unfold hasSubL at h
    rw [Bool.or_eq_false_iff] at h
    unfold fencedJson
    rw [h.1]
    exact ih h.2

theorem dropWhile_append_of_all {α : Type} {p : α → Bool} :
    ∀ {l1 l2 : List α}, (∀ x ∈ l1, p x = true) →
      (l1 ++ l2).dropWhile p = l2.dropWhile p := by
  intro l1
  induction l1 with
  | nil => intro l2 _; rfl
  | cons x xs ih =>
    intro l2 h
    rw [List.cons_append, List.dropWhile_cons, if_pos (h x (by simp))]
    exact ih (fun y hy => h y (by simp [hy]))

theorem upToLast_split {m s : List Char} (hm : rbrace ∉ m) (hs : rbrace ∉ s) :
    upToLast rbrace (m ++ rbrace :: s) = m ++ [rbrace] := by
  unfold upToLast
  have h1 : (m ++ rbrace :: s).reverse = s.reverse ++ rbrace :: m.reverse := by
    simp
  rw [h1]
  rw [dropWhile_append_of_all (p := fun x => decide (x ≠ rbrace))
    (fun x hx => by
      have : x ∈ s := List.mem_reverse.mp hx
      simp
      intro he
      exact hs (he ▸ this))]
  rw [List.dropWhile_cons, if_neg (by simp)]
  simp

theorem contains_append_cons_self (m s : List Char) (c : Char) :
    (m ++ c :: s).contains c = true := by
  induction m with
  | nil => simp
  | cons x xs ih => simp [ih]

theorem braceSpan_cons (c : Char) (rest : List Char) :
    braceSpan (c :: rest) =
      if (decide (c = lbrace) && rest.contains rbrace) = true
      then some (lbrace :: upToLast rbrace rest)
      else braceSpan rest := rfl

theorem braceSpan_split (p m s : List Char) (hp : lbrace ∉ p)
    (hm : rbrace ∉ m) (hs : rbrace ∉ s) :
    braceSpan (p ++ lbrace :: (m ++ rbrace :: s)) = some (lbrace :: (m ++ [rbrace])) := by
  induction p with
  | nil =>
    rw [List.nil_append, braceSpan_cons]
    have hcond : (decide (lbrace = lbrace) && (m ++ rbrace :: s).contains rbrace) = true := by
      rw [Bool.and_eq_true]
      exact ⟨by simp, contains_append_cons_self m s rbrace⟩
    rw [if_pos hcond, upToLast_split hm hs]
  | cons x xs ih =>
    have hx : x ≠ lbrace := fun he => hp (by simp [he])
    rw [List.cons_append, braceSpan_cons]
    rw [if_neg (by simp [hx])]
    exact ih (fun hmem => hp (by simp [hmem]))

theorem braceSpan_none {cs : List Char} (h : lbrace ∉ cs) : braceSpan cs = none := by
  induction cs with
  | nil => rfl
  | cons c rest ih =>
    rw [braceSpan_cons]
    have hc : c ≠ lbrace := fun he => h (by simp [he])
    rw [if_neg (by simp [hc])]
    exact ih (fun hmem => h (by simp [hmem]))

theorem mem_pyStripL {c : Char} {cs : List Char} (h : c ∈ pyStripL cs) : c ∈ cs := by
  unfold pyStripL at h
  rw [List.mem_reverse] at h
  have h2 := (List.dropWhile_sublist (l := (cs.dropWhile pyWs).reverse) pyWs).mem h
  rw [List.mem_reverse] at h2
  exact (List.dropWhile_sublist pyWs).mem h2

theorem pySplitNl_mem {c : Char} :
    ∀ {cs : List Char} {l : List Char}, l ∈ pySplitNl cs → c ∈ l → c ∈ cs := by
  intro cs
  induction cs with
  | nil =>
    intro l hl hc
    unfold pySplitNl at hl
    simp at hl
    subst hl
    cases hc
  | cons x rest ih =>
    intro l hl hc
    unfold pySplitNl at hl
    by_cases hx : x = '\n'
    · rw [if_pos hx] at hl
      rcases List.mem_cons.mp hl with rfl | hl2
      · cases hc
      · exact List.mem_cons_of_mem x (ih hl2 hc)
    · rw [if_neg hx] at hl
      cases hr : pySplitNl rest with
      | nil =>
        rw [hr] at hl
        simp at hl
        subst hl
        rcases List.mem_cons.mp hc with rfl | h0
        · exact List.mem_cons_self _ _
        · cases h0
      | cons l0 ls =>
        rw [hr] at hl
        rcases List.mem_cons.mp hl with rfl | hl2
        · rcases List.mem_cons.mp hc with rfl | h0
          · exact List.mem_cons_self _ _
          · exact List.mem_cons_of_mem _ (ih (hr ▸ List.mem_cons_self l0 ls) h0)
        · exact List.mem_cons_of_mem x (ih (hr ▸ List.mem_cons_of_mem l0 hl2) hc)

theorem firstBraceLine_none {cs : List Char} (h : lbrace ∉ cs) :
    firstBraceLine cs = none := by
  unfold firstBraceLine
  rw [List.find?_eq_none]
  intro l hl
  simp only [decide_eq_true_eq]
  intro hhead
  have hmem : lbrace ∈ pyStripL l := by
    rcases List.head?_eq_some_iff.mp hhead with ⟨ys, hys⟩
    rw [hys]
    exact List.mem_cons_self lbrace ys
  exact h (mem_pyStripL (pySplitNl_mem hl (mem_pyStripL hmem)))

/-- Claim C1 (amended): the extractor is a total function; after a failed
direct parse, for a text with no fenced block and exactly one opening and
one closing brace, in that order, whose enclosed span parses as JSON, it
returns exactly that object; and for a text that fails the direct parse,
has no fenced block and contains no opening brace at all, it returns the
empty mapping.  (The original claim fails both where the whole text is
itself valid non-mapping JSON and where stray braces in the surrounding
prose derail the greedy span.) -/
theorem C1_response_extractor_amended :
    (∀ (p m s : List Char) (v : JsonValue),
      lbrace ∉ p → lbrace ∉ m → lbrace ∉ s →
      rbrace ∉ p → rbrace ∉ m → rbrace ∉ s →
      hasSubL fencePat (p ++ lbrace :: (m ++ rbrace :: s)) = false →
      loadsL (p ++ lbrace :: (m ++ rbrace :: s)) = none →
      loadsL (lbrace :: (m ++ [rbrace])) = some v →
      parse_json_response (String.mk (p ++ lbrace :: (m ++ rbrace :: s))) = v)
    ∧ (∀ t : String, loadsL t.toList = none →
        hasSubL fencePat t.toList = false → lbrace ∉ t.toList →
        parse_json_response t = jobj []) := by
  constructor
  · intro p m s v hlp hlm hls hrp hrm hrs hfence hdirect hv
    have ht : (String.mk (p ++ lbrace :: (m ++ rbrace :: s))).toList =
        p ++ lbrace :: (m ++ rbrace :: s) := rfl
    have h1 : loads (String.mk (p ++ lbrace :: (m ++ rbrace :: s))) = none := hdirect
    simp only [parse_json_response, ht, h1, fencedJson_eq_none _ hfence,
      braceSpan_split p m s hlp hrm hrs, hv]
  · intro t hdirect hfence hnb
    have h1 : loads t = none := hdirect
    simp only [parse_json_response, h1, fencedJson_eq_none _ hfence,
      braceSpan_none hnb, firstBraceLine_none hnb]

/-- Claim C1 (amended) witness: prose around a single well-formed span,
with no other braces, extracts exactly the object. -/
theorem C1_response_extractor_amended_witness :
    parse_json_response (String.mk ("note: ".toList ++ lbrace ::
      ("\"a\": 1".toList ++ rbrace :: " end".toList))) = jobj [("a", jint 1)] :=
  C1_response_extractor_amended.1 "note: ".toList "\"a\": 1".toList " end".toList
    (jobj [("a", jint 1)]) (by decide) (by decide) (by decide) (by decide)
    (by decide) (by decide) rfl rfl rfl

/-- Claim C1, counterexample: the text holds exactly one well-formed
brace span, encoding the object with key `a`, but a stray closing brace
in the trailing prose makes the greedy brace regex grab an unparsable
span, and the inner exception handler returns the empty mapping instead
of the encoded object. -/
theorem C1_counterexample :
    wellFormedSpans ("x \x7b\"a\": 1\x7d y \x7d".toList) = [jobj [("a", jint 1)]]
    ∧ parse_json_response "x \x7b\"a\": 1\x7d y \x7d" = jobj []
    ∧ jobj ([] : Record) ≠ jobj [("a", jint 1)] := by
  refine ⟨rfl, rfl, ?_⟩
  intro h
  have h2 := JsonValue.jobj.inj h
  exact List.noConfusion h2

theorem sep_not_digit {c : Char} (h : sepChar c = true) : c.isDigit = false := by
  unfold sepChar at h
  rcases Bool.or_eq_true_iff.mp h with h1 | h1
  · rw [eq_of_beq h1]
    decide
  · rw [eq_of_beq h1]
    decide

theorem digit_not_sep {c : Char} (h : c.isDigit = true) : sepChar c = false := by
  unfold sepChar
  cases h1 : c == '/' with
  | true =>
    rw [eq_of_beq h1] at h
    exact absurd h (by decide)
  | false =>
    cases h2 : c == '-' with
    | true =>
      rw [eq_of_beq h2] at h
      exact absurd h (by decide)
    | false => rfl

theorem digit_ne_dot {c : Char} (h : c.isDigit = true) : (c = '.') = False := by
  simp only [eq_iff_iff, iff_false]
  intro he
  rw [he] at h
  exact absurd h (by decide)

theorem sep_ne_dot {c : Char} (h : sepChar c = true) : (c = '.') = False := by
  simp only [eq_iff_iff, iff_false]
  intro he
  rw [he] at h
  exact absurd h (by decide)

theorem digit_ne_hyphen {c : Char} (h : c.isDigit = true) : (c = '-') = False := by
  simp only [eq_iff_iff, iff_false]
  intro he
  rw [he] at h
  exact absurd h (by decide)

theorem mk_ne_empty {c : Char} {l : List Char} : String.mk (c :: l) ≠ "" := by
  intro h
  simpa using congrArg String.data h

theorem list_len12 {l : List Char} (h : l.length = 1 ∨ l.length = 2) :
    (∃ a, l = [a]) ∨ (∃ a b, l = [a, b]) := by
  rcases l with _ | ⟨a, _ | ⟨b, _ | ⟨c, tl⟩⟩⟩
  · simp at h
  · exact Or.inl ⟨a, rfl⟩
  · exact Or.inr ⟨a, b, rfl⟩
  · rcases h with h | h <;> simp at h

theorem list_len3 {l : List Char} (h : l.length = 3) : ∃ a b c, l = [a, b, c] := by
  rcases l with _ | ⟨a, _ | ⟨b, _ | ⟨c, _ | ⟨d, tl⟩⟩⟩⟩ <;> simp at h
  exact ⟨a, b, c, rfl⟩

theorem list_len4 {l : List Char} (h : l.length = 4) : ∃ a b c d, l = [a, b, c, d] := by
  rcases l with _ | ⟨a, _ | ⟨b, _ | ⟨c, _ | ⟨d, _ | ⟨e, tl⟩⟩⟩⟩⟩ <;> simp at h
  exact ⟨a, b, c, d, rfl⟩

theorem searchPat1_dmy (dd mm yy : List Char) (sc : Char)
    (hd : dd.length = 1 ∨ dd.length = 2) (hda : dd.all Char.isDigit = true)
    (hm : mm.length = 1 ∨ mm.length = 2) (hma : mm.all Char.isDigit = true)
    (hy : yy.length = 4) (hya : yy.all Char.isDigit = true)
    (hsc : sepChar sc = true) :
    searchPat1 (dd ++ sc :: (mm ++ sc :: yy)) = some (dd, mm, yy) := by
  have hscd : sc.isDigit = false := sep_not_digit hsc
  obtain ⟨e, f, g, h, rfl⟩ := list_len4 hy
  simp only [List.all_cons, List.all_nil, Bool.and_eq_true, Bool.and_true] at hya
  obtain ⟨he, hf, hg, hh⟩ := hya
  rcases list_len12 hd with ⟨a, rfl⟩ | ⟨a, b, rfl⟩ <;>
    rcases list_len12 hm with ⟨c, rfl⟩ | ⟨c, d, rfl⟩ <;>
      simp only [List.all_cons, List.all_nil, Bool.and_eq_true, Bool.and_true] at hda hma <;>
        simp [searchPat1, pat1At, pat1Tail, try12, digits4, List.findSome?,
          hscd, hsc, he, hf, hg, hh, hda, hma]

theorem searchPat1_ymd_none (dd mm yy : List Char) (sc : Char)
    (hd : dd.length = 1 ∨ dd.length = 2) (hda : dd.all Char.isDigit = true)
    (hm : mm.length = 1 ∨ mm.length = 2) (hma : mm.all Char.isDigit = true)
    (hy : yy.length = 4) (hya : yy.all Char.isDigit = true)
    (hsc : sepChar sc = true) :
    searchPat1 (yy ++ sc :: (mm ++ sc :: dd)) = none := by
  have hscd : sc.isDigit = false := sep_not_digit hsc
  obtain ⟨e, f, g, h, rfl⟩ := list_len4 hy
  simp only [List.all_cons, List.all_nil, Bool.and_eq_true, Bool.and_true] at hya
  obtain ⟨he, hf, hg, hh⟩ := hya
  rcases list_len12 hd with ⟨a, rfl⟩ | ⟨a, b, rfl⟩ <;>
    rcases list_len12 hm with ⟨c, rfl⟩ | ⟨c, d, rfl⟩ <;>
      simp only [List.all_cons, List.all_nil, Bool.and_eq_true, Bool.and_true] at hda hma <;>
        simp [searchPat1, pat1At, pat1Tail, try12, digits4, List.findSome?,
          hscd, hsc, he, hf, hg, hh, hda, hma,
          digit_not_sep he, digit_not_sep hf, digit_not_sep hg, digit_not_sep hh]

theorem searchPat2_ymd (dd mm yy : List Char) (sc : Char)
    (hd : dd.length = 1 ∨ dd.length = 2) (hda : dd.all Char.isDigit = true)
    (hm : mm.length = 1 ∨ mm.length = 2) (hma : mm.all Char.isDigit = true)
    (hy : yy.length = 4) (hya : yy.all Char.isDigit = true)
    (hsc : sepChar sc = true) :
    searchPat2 (yy ++ sc :: (mm ++ sc :: dd)) = some (yy, mm, dd) := by
  have hscd : sc.isDigit = false := sep_not_digit hsc
  obtain ⟨e, f, g, h, rfl⟩ := list_len4 hy
  simp only [List.all_cons, List.all_nil, Bool.and_eq_true, Bool.and_true] at hya
  obtain ⟨he, hf, hg, hh⟩ := hya
  rcases list_len12 hd with ⟨a, rfl⟩ | ⟨a, b, rfl⟩ <;>
    rcases list_len12 hm with ⟨c, rfl⟩ | ⟨c, d, rfl⟩ <;>
      simp only [List.all_cons, List.all_nil, Bool.and_eq_true, Bool.and_true] at hda hma <;>
        simp [searchPat2, pat2At, try12, digits4, List.findSome?,
          hscd, hsc, he, hf, hg, hh, hda, hma]

theorem mk_append_cons_ne_empty {p q : List Char} {c : Char} :
    String.mk (p ++ c :: q) ≠ "" := by
  intro h
  have h2 := congrArg String.data h
  simp at h2

/-- Claim C5, counterexample: on the empty string the date normalizer
returns `None` (its falsy-input guard), not the unchanged input, although
the empty string matches neither recognized pattern. -/
theorem C5_counterexample :
    _validate_date_format "" = none
    ∧ searchPat1 "".toList = none
    ∧ searchPat2 "".toList = none
    ∧ (none : Option String) ≠ some "" := by
  refine ⟨rfl, rfl, rfl, ?_⟩
  intro h
  exact Option.noConfusion h

/-- Claim C5 (amended): a full date in any of the four accepted formats
is mapped to canonical `DD/MM/YYYY`; every non-empty input in which
neither pattern matches is returned unchanged; the empty string returns
null (the guard the original claim missed). -/
theorem C5_date_amended :
    (∀ (dd mm yy : List Char) (sc : Char),
      dd.length = 1 ∨ dd.length = 2 → dd.all Char.isDigit = true →
      mm.length = 1 ∨ mm.length = 2 → mm.all Char.isDigit = true →
      yy.length = 4 → yy.all Char.isDigit = true →
      sepChar sc = true →
      _validate_date_format (String.mk (dd ++ sc :: (mm ++ sc :: yy))) =
          some (String.mk (dd ++ '/' :: (mm ++ '/' :: yy)))
      ∧ _validate_date_format (String.mk (yy ++ sc :: (mm ++ sc :: dd))) =
          some (String.mk (dd ++ '/' :: (mm ++ '/' :: yy))))
    ∧ (∀ s : String, s ≠ "" → searchPat1 s.toList = none → searchPat2 s.toList = none →
        _validate_date_format s = some s)
    ∧ _validate_date_format "" = none := by
  refine ⟨?_, ?_, rfl⟩
  · intro dd mm yy sc hd hda hm hma hy hya hsc
    constructor
    · unfold _validate_date_format
      rw [if_neg mk_append_cons_ne_empty]
      have ht : (String.mk (dd ++ sc :: (mm ++ sc :: yy))).toList =
          dd ++ sc :: (mm ++ sc :: yy) := rfl
      simp only [ht, searchPat1_dmy dd mm yy sc hd hda hm hma hy hya hsc]
      simp [List.cons_append, List.append_assoc]
    · unfold _validate_date_format
      rw [if_neg mk_append_cons_ne_empty]
      have ht : (String.mk (yy ++ sc :: (mm ++ sc :: dd))).toList =
          yy ++ sc :: (mm ++ sc :: dd) := rfl
      simp only [ht, searchPat1_ymd_none dd mm yy sc hd hda hm hma hy hya hsc,
        searchPat2_ymd dd mm yy sc hd hda hm hma hy hya hsc]
      simp [List.cons_append, List.append_assoc]
  · intro s hs h1 h2
    unfold _validate_date_format
    rw [if_neg hs]
    simp only [h1, h2]

/-- Claim C5 (amended) witness: the claim's own examples. -/
theorem C5_date_amended_witness :
    _validate_date_format "2024-10-15" = some "15/10/2024"
    ∧ _validate_date_format "15/10/2024" = some "15/10/2024"
    ∧ _validate_date_format "not-a-date" = some "not-a-date" := by
  have h1 := (C5_date_amended.1 "15".toList "10".toList "2024".toList '-'
    (by decide) (by decide) (by decide) (by decide) (by decide) (by decide)
    (by decide)).2
  have h2 := (C5_date_amended.1 "15".toList "10".toList "2024".toList '/'
    (by decide) (by decide) (by decide) (by decide) (by decide) (by decide)
    (by decide)).1
  have h3 := C5_date_amended.2.1 "not-a-date" (by decide) rfl rfl
  exact ⟨h1, h2, h3⟩

theorem rutCheck_cases {k : Char} (hk : rutCheck k = true) :
    k.isDigit = true ∨ k = 'k' ∨ k = 'K' := by
  unfold rutCheck at hk
  rcases Bool.or_eq_true_iff.mp hk with h | h
  · rcases Bool.or_eq_true_iff.mp h with h1 | h1
    · exact Or.inl h1
    · exact Or.inr (Or.inl (eq_of_beq h1))
  · exact Or.inr (Or.inr (eq_of_beq h))

set_option maxHeartbeats 2000000 in
theorem searchRut_shape (hd t u hy : List Char) (k : Char)
    (hhd : hd.length = 1 ∨ hd.length = 2) (hda : hd.all Char.isDigit = true)
    (hht : t.length = 3) (hta : t.all Char.isDigit = true)
    (hhu : u.length = 3) (hua : u.all Char.isDigit = true)
    (hhy : hy = [] ∨ hy = ['-']) (hk : rutCheck k = true) :
    searchRut (hd ++ (t ++ (u ++ (hy ++ [k])))) = some (hd, t, u, k) := by
  obtain ⟨t1, t2, t3, rfl⟩ := list_len3 hht
  obtain ⟨u1, u2, u3, rfl⟩ := list_len3 hhu
  simp only [List.all_cons, List.all_nil, Bool.and_eq_true, Bool.and_true] at hta hua
  obtain ⟨ht1, ht2, ht3⟩ := hta
  obtain ⟨hu1, hu2, hu3⟩ := hua
  have hkh : (k = '-') = False := by
    rcases rutCheck_cases hk with h | h | h
    · exact digit_ne_hyphen h
    · rw [h]; decide
    · rw [h]; decide
  have hkdot : (k = '.') = False := by
    rcases rutCheck_cases hk with h | h | h
    · exact digit_ne_dot h
    · rw [h]; decide
    · rw [h]; decide
  rcases list_len12 hhd with ⟨a, rfl⟩ | ⟨a, b, rfl⟩ <;>
    rcases hhy with rfl | rfl <;>
      simp only [List.all_cons, List.all_nil, Bool.and_eq_true, Bool.and_true] at hda <;>
        rcases rutCheck_cases hk with hkc | hkc | hkc <;>
          first
          | (subst hkc
             simp [searchRut, rutAt, try12, dotOpt, hyphenOpt, digits3, rutCheck,
               List.findSome?, hda, ht1, ht2, ht3, hu1, hu2, hu3, hk, hkh, hkdot,
               digit_ne_dot ht1, digit_ne_dot ht2, digit_ne_dot ht3,
               digit_ne_dot hu1, digit_ne_dot hu2, digit_ne_dot hu3])
          | simp [searchRut, rutAt, try12, dotOpt, hyphenOpt, digits3, rutCheck,
              List.findSome?, hda, ht1, ht2, ht3, hu1, hu2, hu3, hk, hkh, hkdot, hkc,
              digit_ne_dot ht1, digit_ne_dot ht2, digit_ne_dot ht3,
              digit_ne_dot hu1, digit_ne_dot hu2, digit_ne_dot hu3,
              digit_ne_hyphen hkc, digit_ne_dot hkc]

/-- Claim C6, counterexample: on the empty string the RUT normalizer
returns `None` (its falsy-input guard), not the unchanged input, although
the empty string contains no match of the pattern. -/
theorem C6_counterexample :
    _validate_rut_format "" = none
    ∧ searchRut ("".toList.filter rutKeep) = none
    ∧ (none : Option String) ≠ some "" := by
  refine ⟨rfl, rfl, ?_⟩
  intro h
  exact Option.noConfusion h

/-- Claim C6 (amended): stripping keeps only digits, hyphen and the
checksum letter; when the stripped text has the shape 1-2 digits, 3
digits, 3 digits, optional hyphen, checksum digit-or-letter, the match is
reassembled as `XX.XXX.XXX-C` with the checksum upper-cased; a non-empty
input whose stripped form contains no match passes through unchanged; the
empty string returns null (the guard the original claim missed). -/
theorem C6_rut_amended :
    (∀ (s : String) (hd t u hy : List Char) (k : Char),
      s ≠ "" →
      hd.length = 1 ∨ hd.length = 2 → hd.all Char.isDigit = true →
      t.length = 3 → t.all Char.isDigit = true →
      u.length = 3 → u.all Char.isDigit = true →
      hy = [] ∨ hy = ['-'] → rutCheck k = true →
      s.toList.filter rutKeep = hd ++ (t ++ (u ++ (hy ++ [k]))) →
      _validate_rut_format s =
        some (String.mk (hd ++ '.' :: (t ++ '.' :: (u ++ '-' :: [pyUpperChar k])))))
    ∧ (∀ s : String, s ≠ "" → searchRut (s.toList.filter rutKeep) = none →
        _validate_rut_format s = some s)
    ∧ _validate_rut_format "" = none := by
  refine ⟨?_, ?_, rfl⟩
  · intro s hd t u hy k hs hhd hda hht hta hhu hua hhy hk hfil
    unfold _validate_rut_format
    rw [if_neg hs]
    simp only [hfil, searchRut_shape hd t u hy k hhd hda hht hta hhu hua hhy hk]
    obtain ⟨t1, t2, t3, rfl⟩ := list_len3 hht
    obtain ⟨u1, u2, u3, rfl⟩ := list_len3 hhu
    rcases list_len12 hhd with ⟨a, rfl⟩ | ⟨a, b, rfl⟩ <;> simp
  · intro s hs h1
    unfold _validate_rut_format
    rw [if_neg hs]
    simp only [h1]

/-- Claim C6 (amended) witness: the claim's own examples. -/
theorem C6_rut_amended_witness :
    _validate_rut_format "76123456-7" = some "76.123.456-7"
    ∧ _validate_rut_format "76.123.456-k" = some "76.123.456-K" := by
  have h1 := C6_rut_amended.1 "76123456-7" "76".toList "123".toList "456".toList
    ['-'] '7' (by decide) (by decide) (by decide) (by decide) (by decide)
    (by decide) (by decide) (Or.inr rfl) (by decide) rfl
  have h2 := C6_rut_amended.1 "76.123.456-k" "76".toList "123".toList "456".toList
    ['-'] 'k' (by decide) (by decide) (by decide) (by decide) (by decide)
    (by decide) (by decide) (Or.inr rfl) (by decide) rfl
  exact ⟨h1, h2⟩
